import Mathlib

/-!
Verification of the knowledge subsystem of the personal-ai-agent repository:
a shallow embedding of `src/knowledge/memory_manager.py`,
`src/knowledge/retrieval_engine.py`, `src/knowledge/vector_database.py`
and `src/knowledge/knowledge_module.py`.

Modelling conventions:
* Python dicts are association lists in insertion order (Python dicts
  preserve insertion order); `dlookup`, `dictInsert`, `dictErase` model
  `d[k]`, `d[k] = v` and `del d[k]`.
* Python float values are modelled as exact rationals (every float is a
  rational); the only irrational computations in the sources are the
  square roots inside cosine similarity, whose results are modelled in `ℝ`.
* `list.sort(key=..., reverse=...)` is a stable sort and therefore equal to
  insertion sort with the corresponding total preorder.
* Wall-clock values (`datetime.now()`) are passed as explicit parameters.
* Generated UUIDs are passed as explicit parameters.
-/

/-- Modelled from the spec: a dynamic (Python) metadata value, as stored in
the `metadata` maps of `knowledge/models.py` (file not present in `src`);
numbers are exact rationals. -/
inductive PyValue where
  | str (s : String)
  | num (q : ℚ)
  | boolean (b : Bool)
  | pynone
deriving DecidableEq, Repr

/-- Coercion of a metadata value by Python `float(...)`, used by the
`min_confidence` / `max_age` filters (numeric filter values). -/
def pyFloat : PyValue → ℚ
  | .num q => q
  | .boolean true => 1
  | .boolean false => 0
  | .str _ => 0
  | .pynone => 0

/-- Dictionary lookup `d[k]` / `k in d` on an insertion-ordered assoc list. -/
def dlookup (k : String) : List (String × α) → Option α
  | [] => none
  | p :: rest => if p.1 = k then some p.2 else dlookup k rest

/-- Dictionary update `d[k] = v`: replaces the value in place if the key is
present, appends otherwise (Python dict semantics). -/
def dictInsert (d : List (String × α)) (k : String) (v : α) : List (String × α) :=
  match d with
  | [] => [(k, v)]
  | p :: rest => if p.1 = k then (k, v) :: rest else p :: dictInsert rest k v

/-- Dictionary deletion `del d[k]`: removes the (first) entry with key `k`. -/
def dictErase (d : List (String × α)) (k : String) : List (String × α) :=
  match d with
  | [] => []
  | p :: rest => if p.1 = k then rest else p :: dictErase rest k

/-- Keys of an assoc list, in order. -/
def dkeys (d : List (String × α)) : List String := d.map Prod.fst


/-- Lower-casing of a string, modelling Python `str.lower()` on the ASCII
range used by the sources. -/
def lowerStr (s : String) : String := ⟨s.data.map Char.toLower⟩

/-- Splitting of a character list on whitespace runs, dropping empty pieces:
the behaviour of Python `str.split()` with no argument. `acc` holds the
characters of the current word in reverse. -/
def splitWsAux : List Char → List Char → List (List Char)
  | [], acc => if acc.isEmpty then [] else [acc.reverse]
  | c :: cs, acc =>
    if c.isWhitespace then
      if acc.isEmpty then splitWsAux cs [] else acc.reverse :: splitWsAux cs []
    else splitWsAux cs (c :: acc)

/-- Python `set(text.lower().split())`: the deduplicated lower-case
whitespace tokens of a text, as used by `_keyword_search`. -/
def tokenSet (s : String) : List String :=
  ((splitWsAux (lowerStr s).data []).map (fun l => String.mk l)).dedup

/-- Containment of `needle` in `hay` as character lists, modelling the
Python substring test `needle in hay`. -/
def substrAux (needle : List Char) : List Char → Bool
  | [] => needle.isEmpty
  | c :: rest => needle.isPrefixOf (c :: rest) || substrAux needle rest

/-- Python `needle in hay` on strings. -/
def strContains (hay needle : String) : Bool := substrAux needle.data hay.data

/-- Lexicographic comparison of character lists by code point, modelling
Python string `<=`. -/
def charListLe : List Char → List Char → Bool
  | [], _ => true
  | _ :: _, [] => false
  | c :: cs, d :: ds =>
    if c.toNat < d.toNat then true
    else if d.toNat < c.toNat then false
    else charListLe cs ds

/-- Python string `a <= b` (by code points). -/
def strLe (a b : String) : Bool := charListLe a.data b.data

/-- Ranking relation of `list.sort(key=lambda x: x[1], reverse=True)` on
scored rational results: `a` may be placed before `b`. Insertion sort with
this relation is the unique stable descending sort Python produces. -/
def revScoreQ (a b : String × ℚ) : Prop := b.2 ≤ a.2

instance : DecidableRel revScoreQ := fun a b => inferInstanceAs (Decidable (b.2 ≤ a.2))

instance : IsTotal (String × ℚ) revScoreQ := ⟨fun a b => le_total b.2 a.2⟩

instance : IsTrans (String × ℚ) revScoreQ := ⟨fun _ _ _ h1 h2 => le_trans h2 h1⟩

/-- Ranking relation of the same descending sort on real-scored results
(semantic and hybrid search). -/
def revScoreR (a b : String × ℝ) : Prop := b.2 ≤ a.2

noncomputable instance : DecidableRel revScoreR := fun a b => inferInstanceAs (Decidable (b.2 ≤ a.2))

instance : IsTotal (String × ℝ) revScoreR := ⟨fun a b => le_total b.2 a.2⟩

instance : IsTrans (String × ℝ) revScoreR := ⟨fun _ _ _ h1 h2 => le_trans h2 h1⟩

/-- Ranking relation of `matches.sort(key=lambda x: x[0])` in
`_exact_search`: ascending, by item id. -/
def idLe (a b : String × ℚ) : Prop := strLe a.1 b.1 = true

instance : DecidableRel idLe := fun a b => inferInstanceAs (Decidable (strLe a.1 b.1 = true))

/-- Modelled from the spec: the memory tier / type enum of
`knowledge/models.py` (file not present in `src`): `SHORT_TERM`,
`LONG_TERM` and the `SEMANTIC` type used by the knowledge facade are
distinct enum members. -/
inductive MemoryType where
  | short_term
  | long_term
  | semantic
deriving DecidableEq, Repr

/-- Modelled from the spec: a memory item of `knowledge/models.py` (file not
present in `src`): id, content, tier/type, embedding, metadata, importance,
access count and last-access timestamp (seconds). -/
structure MemoryItem where
  item_id : String
  content : String
  memory_type : MemoryType
  embedding : List ℚ
  metadata : List (String × PyValue)
  importance : ℚ
  access_count : ℕ
  last_accessed : ℚ
deriving DecidableEq, Repr

/-- Modelled from the spec: a memory category of `knowledge/models.py` (file
not present in `src`): a tag grouping holding an ordered list of item ids. -/
structure MemoryCategory where
  category_id : String
  name : String
  description : String
  parent_id : Option String
  items : List String
deriving DecidableEq, Repr

/-- State of a `MemoryManager`: the two tier maps and the category map
(`memory_manager.py`, `__init__`). -/
structure MMState where
  short_term : List (String × MemoryItem)
  long_term : List (String × MemoryItem)
  categories : List (String × MemoryCategory)
deriving DecidableEq, Repr

/-- The freshly initialised `MemoryManager`. -/
def initMM : MMState := ⟨[], [], []⟩

/-- `MemoryManager.store_item`: generates an id when the given one is empty
(the generated uuid is the explicit `freshId` parameter) and stores the item
in the tier map selected by its memory type. -/
def storeItem (mm : MMState) (item : MemoryItem) (freshId : String) : String × MMState :=
  let item' := if item.item_id = "" then { item with item_id := freshId } else item
  if item'.memory_type = MemoryType.short_term then
    (item'.item_id, { mm with short_term := dictInsert mm.short_term item'.item_id item' })
  else
    (item'.item_id, { mm with long_term := dictInsert mm.long_term item'.item_id item' })

/-- `MemoryManager.retrieve_item`: looks in short-term memory first, then
long-term; on a hit updates `last_accessed` (to `now`) and bumps
`access_count` in place. -/
def retrieveItem (mm : MMState) (id : String) (now : ℚ) : Option MemoryItem × MMState :=
  match dlookup id mm.short_term with
  | some item =>
    let item' := { item with last_accessed := now, access_count := item.access_count + 1 }
    (some item', { mm with short_term := dictInsert mm.short_term id item' })
  | none =>
    match dlookup id mm.long_term with
    | some item =>
      let item' := { item with last_accessed := now, access_count := item.access_count + 1 }
      (some item', { mm with long_term := dictInsert mm.long_term id item' })
    | none => (none, mm)

/-- `MemoryManager.update_item`: replaces the stored item in whichever tier
map currently holds its id. -/
def updateItem (mm : MMState) (item : MemoryItem) : Bool × MMState :=
  if (dlookup item.item_id mm.short_term).isSome then
    (true, { mm with short_term := dictInsert mm.short_term item.item_id item })
  else if (dlookup item.item_id mm.long_term).isSome then
    (true, { mm with long_term := dictInsert mm.long_term item.item_id item })
  else (false, mm)

/-- Removal of an id from every category's item list (Python
`category.items.remove(item_id)` removes the first occurrence, guarded by a
membership test). -/
def purgeCategories (cats : List (String × MemoryCategory)) (id : String) :
    List (String × MemoryCategory) :=
  cats.map (fun p =>
    (p.1, { p.2 with items := if id ∈ p.2.items then p.2.items.erase id else p.2.items }))

/-- `MemoryManager.delete_item`: deletes from whichever tier holds the id
and purges category references; an absent id returns failure and changes
nothing. -/
def deleteItem (mm : MMState) (id : String) : Bool × MMState :=
  if (dlookup id mm.short_term).isSome then
    (true, { mm with short_term := dictErase mm.short_term id,
                     categories := purgeCategories mm.categories id })
  else if (dlookup id mm.long_term).isSome then
    (true, { mm with long_term := dictErase mm.long_term id,
                     categories := purgeCategories mm.categories id })
  else (false, mm)

/-- `MemoryManager.move_to_long_term`: fails on an id absent from short-term
memory; otherwise retypes the item and moves it short → long. -/
def moveToLongTerm (mm : MMState) (id : String) : Bool × MMState :=
  match dlookup id mm.short_term with
  | none => (false, mm)
  | some item =>
    let item' := { item with memory_type := MemoryType.long_term }
    (true, { mm with long_term := dictInsert mm.long_term id item',
                     short_term := dictErase mm.short_term id })

/-- `MemoryManager.move_to_short_term`: fails on an id absent from long-term
memory; otherwise retypes the item and moves it long → short. -/
def moveToShortTerm (mm : MMState) (id : String) : Bool × MMState :=
  match dlookup id mm.long_term with
  | none => (false, mm)
  | some item =>
    let item' := { item with memory_type := MemoryType.short_term }
    (true, { mm with short_term := dictInsert mm.short_term id item',
                     long_term := dictErase mm.long_term id })

/-- `MemoryManager.optimize_memory`: collects the short-term ids with
importance < 0.3 and access count < 3, then moves each to long-term. -/
def optimizeMemory (mm : MMState) : MMState :=
  let ids := (mm.short_term.filter
    (fun p => decide (p.2.importance < 0.3) && decide (p.2.access_count < 3))).map Prod.fst
  ids.foldl (fun m i => (moveToLongTerm m i).2) mm

/-- Modelled from the spec: a context item of `knowledge/models.py` (file
not present in `src`): importance, a decayed recency score, an estimated
token count and a source tag. -/
structure ContextItem where
  item_id : String
  content : String
  importance : ℚ
  recency : ℚ
  token_count : ℕ
  source : String
  metadata : List (String × PyValue)
deriving DecidableEq, Repr

/-- Modelled from the spec: a context window of `knowledge/models.py` (file
not present in `src`). -/
structure ContextWindow where
  window_id : String
  items : List ContextItem
  max_tokens : ℕ
  current_tokens : ℕ
  strategy : String
deriving DecidableEq, Repr

/-- `MemoryManager._estimate_token_count`: `len(text) // 4 + 1`. -/
def estimateTokenCount (text : String) : ℕ := text.length / 4 + 1

/-- The context items built by `create_context_window` from every short-term
item. The recency score `_calculate_recency` depends on the wall clock and
is the explicit `recf` parameter (its value `2^(-dt/3600)` clamped to
`[0,1]` is irrational in general). -/
def contextItemsOf (st : List (String × MemoryItem)) (recf : MemoryItem → ℚ) :
    List ContextItem :=
  (st.map Prod.snd).map (fun item =>
    { item_id := item.item_id
      content := item.content
      importance := item.importance
      recency := recf item
      token_count := estimateTokenCount item.content
      source := "memory"
      metadata := item.metadata })

/-- Ranking relation of the `importance_recency` sort key
`x.importance * 0.7 + x.recency * 0.3`, descending and stable. -/
def ciKeyIR (a b : ContextItem) : Prop :=
  b.importance * 0.7 + b.recency * 0.3 ≤ a.importance * 0.7 + a.recency * 0.3

instance : DecidableRel ciKeyIR := fun a b =>
  inferInstanceAs (Decidable (b.importance * 0.7 + b.recency * 0.3 ≤ a.importance * 0.7 + a.recency * 0.3))

/-- Ranking relation of the `importance` sort key, descending and stable. -/
def ciKeyImp (a b : ContextItem) : Prop := b.importance ≤ a.importance

instance : DecidableRel ciKeyImp := fun a b =>
  inferInstanceAs (Decidable (b.importance ≤ a.importance))

/-- Ranking relation of the `recency` sort key, descending and stable. -/
def ciKeyRec (a b : ContextItem) : Prop := b.recency ≤ a.recency

instance : DecidableRel ciKeyRec := fun a b =>
  inferInstanceAs (Decidable (b.recency ≤ a.recency))

/-- The strategy dispatch of `create_context_window`: each branch is the
stable descending sort by the strategy's key; an unknown strategy leaves
the list unsorted. -/
def sortStrategy (strategy : String) (l : List ContextItem) : List ContextItem :=
  if strategy = "importance_recency" then List.insertionSort ciKeyIR l
  else if strategy = "importance" then List.insertionSort ciKeyImp l
  else if strategy = "recency" then List.insertionSort ciKeyRec l
  else l

/-- The greedy selection loop of `create_context_window`: accepts items
while the budget is respected and breaks at the first item that would
overflow it; returns selected items and the final token count. -/
def selectItems (maxT : ℕ) (cur : ℕ) : List ContextItem → List ContextItem × ℕ
  | [] => ([], cur)
  | i :: rest =>
    if cur + i.token_count ≤ maxT then
      let r := selectItems maxT (cur + i.token_count) rest
      (i :: r.1, r.2)
    else ([], cur)

/-- `MemoryManager.create_context_window` (the generated window uuid is the
explicit `wid` parameter). -/
def createContextWindow (st : List (String × MemoryItem)) (recf : MemoryItem → ℚ)
    (maxT : ℕ) (strategy : String) (wid : String) : ContextWindow :=
  let sorted := sortStrategy strategy (contextItemsOf st recf)
  let r := selectItems maxT 0 sorted
  { window_id := wid
    items := r.1
    max_tokens := maxT
    current_tokens := r.2
    strategy := strategy }

/-- An observable `MemoryManager` operation, as listed in the tier-exclusivity
claim; wall-clock values and generated uuids are carried by the operation. -/
inductive MOp where
  | store (item : MemoryItem) (freshId : String)
  | retrieve (id : String) (now : ℚ)
  | update (item : MemoryItem)
  | delete (id : String)
  | moveLT (id : String)
  | moveST (id : String)
  | optimize
deriving Repr

/-- The state transition of one `MemoryManager` operation (return values
discarded). -/
def runOp (mm : MMState) : MOp → MMState
  | .store item fid => (storeItem mm item fid).2
  | .retrieve id now => (retrieveItem mm id now).2
  | .update item => (updateItem mm item).2
  | .delete id => (deleteItem mm id).2
  | .moveLT id => (moveToLongTerm mm id).2
  | .moveST id => (moveToShortTerm mm id).2
  | .optimize => optimizeMemory mm

/-- Running a sequence of operations. -/
def runOps (mm : MMState) (ops : List MOp) : MMState := ops.foldl runOp mm

/-- Freshness check for one operation: a `store` must use an id not present
in either tier map (as the generated uuids are). Non-store operations are
unrestricted. -/
def storeOK (mm : MMState) : MOp → Bool
  | .store item fid =>
    let id := if item.item_id = "" then fid else item.item_id
    !(dlookup id mm.short_term).isSome && !(dlookup id mm.long_term).isSome
  | _ => true

/-- A run in which every `store` uses a fresh id at the moment it executes. -/
def freshRun (mm : MMState) : List MOp → Bool
  | [] => true
  | op :: ops => storeOK mm op && freshRun (runOp mm op) ops

/-- Modelled from the spec: a vector collection of `knowledge/models.py`
(file not present in `src`). -/
structure VectorCollection where
  collection_id : String
  name : String
  dimension : ℕ
  index_type : String
deriving DecidableEq, Repr

/-- Modelled from the spec: a vector entry of `knowledge/models.py` (file
not present in `src`). -/
structure VectorEntry where
  entry_id : String
  vector : List ℚ
  item_id : String
  metadata : List (String × PyValue)
deriving DecidableEq, Repr

/-- State of a `VectorDatabase` (`vector_database.py`, `__init__`):
collections, per-collection entry maps, and the reverse
item → (collection, entry) index. -/
structure VDB where
  collections : List (String × VectorCollection)
  entries : List (String × List (String × VectorEntry))
  item_mapping : List (String × List (String × String))
deriving DecidableEq, Repr

/-- The freshly initialised `VectorDatabase`. -/
def initVDB : VDB := ⟨[], [], []⟩

/-- The `ValueError`s raised by `VectorDatabase`. -/
inductive VDBErr where
  | collectionNotFound (cid : String)
  | dimensionMismatch (expected got : ℕ)
deriving DecidableEq, Repr

/-- Truthiness of the optional `filter_metadata` / `query.filters` argument:
Python treats both `None` and an empty dict as false. -/
def truthyFilters : Option (List (String × PyValue)) → Bool
  | none => false
  | some l => !l.isEmpty

/-- `VectorDatabase._matches_metadata_filter`: every filter key must be
present in the entry metadata with an equal value. -/
def matchesMetadataFilter (metadata filt : List (String × PyValue)) : Bool :=
  filt.all (fun kv =>
    match dlookup kv.1 metadata with
    | none => false
    | some w => w == kv.2)

/-- `VectorDatabase.add_vector`: checks the collection, then the dimension,
then stores the entry and extends the reverse index (the generated entry
uuid is the explicit `eid` parameter). Python raises `ValueError` on the
error paths, modelled by `Except.error`. -/
def addVector (db : VDB) (cid : String) (vector : List ℚ) (item_id : String)
    (metadata : List (String × PyValue)) (eid : String) :
    Except VDBErr (String × VDB) :=
  match dlookup cid db.collections with
  | none => .error (.collectionNotFound cid)
  | some c =>
    if vector.length ≠ c.dimension then
      .error (.dimensionMismatch c.dimension vector.length)
    else
      let entry : VectorEntry := ⟨eid, vector, item_id, metadata⟩
      let es := (dlookup cid db.entries).getD []
      let cur := (dlookup item_id db.item_mapping).getD []
      .ok (eid,
        { db with
            entries := dictInsert db.entries cid (dictInsert es eid entry)
            item_mapping := dictInsert db.item_mapping item_id (cur ++ [(cid, eid)]) })

/-- The `VectorDatabase` state after an `add_vector` call: unchanged when
the call raised. -/
def addVectorState (db : VDB) (cid : String) (vector : List ℚ) (item_id : String)
    (metadata : List (String × PyValue)) (eid : String) : VDB :=
  match addVector db cid vector item_id metadata eid with
  | .ok r => r.2
  | .error _ => db

/-- `VectorDatabase.delete_vector`: deletes one entry, filters the
(collection, entry) pair out of the owning item's reverse-index list, and
drops the list when it becomes empty. Absent ids return failure. -/
def deleteVector (db : VDB) (cid eid : String) : Bool × VDB :=
  match dlookup cid db.collections with
  | none => (false, db)
  | some _ =>
    let es := (dlookup cid db.entries).getD []
    match dlookup eid es with
    | none => (false, db)
    | some entry =>
      let entries' := dictInsert db.entries cid (dictErase es eid)
      let mapping' :=
        match dlookup entry.item_id db.item_mapping with
        | none => db.item_mapping
        | some l =>
          let l' := l.filter (fun pr => ¬(pr.1 = cid ∧ pr.2 = eid))
          if l'.isEmpty then dictErase db.item_mapping entry.item_id
          else dictInsert db.item_mapping entry.item_id l'
      (true, { db with entries := entries', item_mapping := mapping' })

/-- The deletion loop of `delete_item_vectors` over a copied pair list,
counting successful deletions. -/
def delLoop (db : VDB) : List (String × String) → ℕ × VDB
  | [] => (0, db)
  | p :: rest =>
    let r := deleteVector db p.1 p.2
    let r2 := delLoop r.2 rest
    ((if r.1 then 1 else 0) + r2.1, r2.2)

/-- `VectorDatabase.delete_item_vectors`: deletes every vector listed in the
reverse index for an item; an unknown item returns count 0. -/
def deleteItemVectors (db : VDB) (item_id : String) : ℕ × VDB :=
  match dlookup item_id db.item_mapping with
  | none => (0, db)
  | some vectors => delLoop db vectors

/-- Sum over `List.zipWith (· * ·)`, modelling `np.dot` on equal-length
vectors. -/
def dotQ (v1 v2 : List ℚ) : ℚ := (List.zipWith (fun a b => a * b) v1 v2).sum

/-- Sum of squares of a vector (the square of `np.linalg.norm`). -/
def sumSq (v : List ℚ) : ℚ := (v.map (fun a => a * a)).sum

/-- `VectorDatabase._cosine_similarity`: `dot / (‖v1‖ * ‖v2‖)`, and `0.0`
when either norm is zero. The square roots are irrational in general, so
the result lives in `ℝ`. -/
noncomputable def cosineSim (v1 v2 : List ℚ) : ℝ :=
  let m1 : ℝ := Real.sqrt ((sumSq v1 : ℚ) : ℝ)
  let m2 : ℝ := Real.sqrt ((sumSq v2 : ℚ) : ℝ)
  if m1 = 0 ∨ m2 = 0 then 0 else ((dotQ v1 v2 : ℚ) : ℝ) / (m1 * m2)

/-- `VectorDatabase.search_vectors`: checks collection and dimension, then
scores each entry (in insertion order) by cosine similarity against the
query vector, skipping entries rejected by a truthy metadata filter and
entries below the threshold, sorts descending by score (stably) and keeps
the first `top_k`. -/
noncomputable def searchVectors (db : VDB) (cid : String) (qv : List ℚ)
    (top_k : ℕ) (threshold : ℚ) (filt : Option (List (String × PyValue))) :
    Except VDBErr (List (String × ℝ)) :=
  match dlookup cid db.collections with
  | none => .error (.collectionNotFound cid)
  | some c =>
    if qv.length ≠ c.dimension then
      .error (.dimensionMismatch c.dimension qv.length)
    else
      let es := (dlookup cid db.entries).getD []
      let sims := es.filterMap (fun p =>
        if truthyFilters filt = true ∧ matchesMetadataFilter p.2.metadata (filt.getD []) = false then
          none
        else
          let sim := cosineSim qv p.2.vector
          if ((threshold : ℚ) : ℝ) ≤ sim then some (p.1, sim) else none)
      .ok ((List.insertionSort revScoreR sims).take top_k)

/-- The item id recorded for an entry id in `search_items`
(`self.entries[collection_id][entry_id].item_id`; the entry always exists
for ids produced by `search_vectors`). -/
def entryItemId (db : VDB) (cid eid : String) : String :=
  match dlookup cid db.entries with
  | none => ""
  | some es =>
    match dlookup eid es with
    | none => ""
    | some e => e.item_id

/-- The deduplication loop of `search_items`: first occurrence of each item
id wins; `seen` is the set of already-emitted item ids. -/
def dedupItems (db : VDB) (cid : String) :
    List (String × ℝ) → List String → List (String × ℝ)
  | [], _ => []
  | p :: rest, seen =>
    let iid := entryItemId db cid p.1
    if iid ∈ seen then dedupItems db cid rest seen
    else (iid, p.2) :: dedupItems db cid rest (iid :: seen)

/-- `VectorDatabase.search_items`: entry-level search followed by
deduplication by item id. -/
noncomputable def searchItems (db : VDB) (cid : String) (qv : List ℚ)
    (top_k : ℕ) (threshold : ℚ) (filt : Option (List (String × PyValue))) :
    Except VDBErr (List (String × ℝ)) :=
  (searchVectors db cid qv top_k threshold filt).map
    (fun vres => dedupItems db cid vres [])

/-- Modelled from the spec: a knowledge item of `knowledge/models.py` (file
not present in `src`): content, source, confidence, metadata and a creation
timestamp (seconds; `none` models a missing/None `created_at`). -/
structure KnowledgeItem where
  item_id : String
  content : String
  source : String
  confidence : ℚ
  metadata : List (String × PyValue)
  created_at : Option ℚ
deriving DecidableEq, Repr

/-- Modelled from the spec: the query-type enum of `knowledge/models.py`
(file not present in `src`). -/
inductive QueryType where
  | semantic
  | keyword
  | hybrid
  | exact
deriving DecidableEq, Repr

/-- Modelled from the spec: a knowledge query of `knowledge/models.py` (file
not present in `src`): text, type, optional filters, `top_k` and
`threshold`. -/
structure KnowledgeQuery where
  query_id : String
  query_text : String
  query_type : QueryType
  filters : Option (List (String × PyValue))
  top_k : ℕ
  threshold : ℚ
deriving Repr

/-- One iteration of the `_matches_filters` loop of `retrieval_engine.py`
for a filter pair `(key, value)`: the `elif` chain returns `false`
(excludes) on the first condition that fires, and otherwise continues. Note
that an `elif` whose guard fails falls through to the metadata-equality
check, and that a metadata key absent from the item does not exclude it.
The `max_age` guard is only `key == "max_age" and item.created_at` — the
age comparison happens inside the taken branch, so when `created_at` is
present an age within bound keeps the item without ever reaching the
metadata-equality check. -/
def filterOne (now : ℚ) (item : KnowledgeItem) (key : String) (value : PyValue) : Bool :=
  if key = "source" ∧ value ≠ PyValue.str item.source then false
  else if key = "min_confidence" ∧ item.confidence < pyFloat value then false
  else if key = "max_age" ∧ item.created_at.isSome = true then
    decide ((now - item.created_at.getD 0) / 86400 ≤ pyFloat value)
  else
    match dlookup key item.metadata with
    | some w => w == value
    | none => true

/-- `RetrievalEngine._matches_filters`: the item matches when no filter pair
excludes it. -/
def matchesFilters (now : ℚ) (item : KnowledgeItem) (filters : List (String × PyValue)) : Bool :=
  filters.all (fun kv => filterOne now item kv.1 kv.2)

/-- State of a `RetrievalEngine`: the vector database, the embedding
provider (an external collaborator, modelled as a function), and the
optional default collection id. -/
structure REngine where
  vdb : VDB
  embed : String → List ℚ
  default_collection : Option String

/-- `RetrievalEngine._semantic_search`: returns `[]` without a default
collection, otherwise embeds the query, searches the vector database, and
keeps only result ids present in the item catalog. Exceptions from
`search_items` propagate. -/
noncomputable def semanticSearch (e : REngine) (q : KnowledgeQuery)
    (cat : List (String × KnowledgeItem)) : Except VDBErr (List (String × ℝ)) :=
  match e.default_collection with
  | none => .ok []
  | some cid =>
    (searchItems e.vdb cid (e.embed q.query_text) q.top_k q.threshold q.filters).map
      (fun res => res.filter (fun p => (dlookup p.1 cat).isSome))

/-- The token-overlap score of `_keyword_search` for one item:
`|query_tokens ∩ item_tokens| / |query_tokens|`, and `0` when either token
set is empty. -/
def keywordScore (q : KnowledgeQuery) (item : KnowledgeItem) : ℚ :=
  if (tokenSet q.query_text).isEmpty ∨ (tokenSet item.content).isEmpty then 0
  else (((tokenSet q.query_text).filter (fun t => t ∈ tokenSet item.content)).length : ℚ)
    / ((tokenSet q.query_text).length : ℚ)

/-- The scoring loop of `_keyword_search` over the catalog (in insertion
order): skips items rejected by a truthy filter and items below the
threshold. -/
def keywordScored (q : KnowledgeQuery) (cat : List (String × KnowledgeItem))
    (now : ℚ) : List (String × ℚ) :=
  cat.filterMap (fun p =>
    if truthyFilters q.filters = true ∧ matchesFilters now p.2 (q.filters.getD []) = false then
      none
    else if q.threshold ≤ keywordScore q p.2 then some (p.1, keywordScore q p.2) else none)

/-- `RetrievalEngine._keyword_search`: token-overlap scoring, then the
stable descending sort by score and `top_k` truncation. All scores are
exact rationals. -/
def keywordSearchQ (q : KnowledgeQuery) (cat : List (String × KnowledgeItem))
    (now : ℚ) : List (String × ℚ) :=
  (List.insertionSort revScoreQ (keywordScored q cat now)).take q.top_k

/-- The match loop of `_exact_search`: case-insensitive substring
containment, score fixed at `1.0`, no threshold test. -/
def exactMatches (q : KnowledgeQuery) (cat : List (String × KnowledgeItem))
    (now : ℚ) : List (String × ℚ) :=
  cat.filterMap (fun p =>
    if truthyFilters q.filters = true ∧ matchesFilters now p.2 (q.filters.getD []) = false then
      none
    else if strContains (lowerStr p.2.content) (lowerStr q.query_text) then
      some (p.1, (1 : ℚ))
    else none)

/-- `RetrievalEngine._exact_search`: matches sorted ascending by item id and
truncated to `top_k`. -/
def exactSearchQ (q : KnowledgeQuery) (cat : List (String × KnowledgeItem))
    (now : ℚ) : List (String × ℚ) :=
  (List.insertionSort idLe (exactMatches q cat now)).take q.top_k

/-- The combined score of `_hybrid_search` for one item id:
`0.7·semantic + 0.3·keyword`, a missing side contributing `0`. -/
noncomputable def hybridScore (sres : List (String × ℝ)) (kres : List (String × ℚ))
    (id : String) : ℝ :=
  (dlookup id sres).getD 0 * 0.7 + (((dlookup id kres).getD 0 : ℚ) : ℝ) * 0.3

/-- The combination loop of `_hybrid_search` over the union of matched item
ids, filtered by threshold. Python iterates the union as a hash set in
unspecified order; the model fixes first-seen order, on which no claimed
property depends. -/
noncomputable def hybridCombined (q : KnowledgeQuery) (sres : List (String × ℝ))
    (kres : List (String × ℚ)) : List (String × ℝ) :=
  ((sres.map Prod.fst ++ kres.map Prod.fst).dedup).filterMap (fun id =>
    if ((q.threshold : ℚ) : ℝ) ≤ hybridScore sres kres id then
      some (id, hybridScore sres kres id)
    else none)

/-- `RetrievalEngine._hybrid_search`: runs semantic and keyword search,
combines their scores, sorts descending and truncates to `top_k`. -/
noncomputable def hybridSearch (e : REngine) (q : KnowledgeQuery)
    (cat : List (String × KnowledgeItem)) (now : ℚ) :
    Except VDBErr (List (String × ℝ)) :=
  match semanticSearch e q cat with
  | .error er => .error er
  | .ok sres =>
    .ok ((List.insertionSort revScoreR
      (hybridCombined q sres (keywordSearchQ q cat now))).take q.top_k)

/-- `RetrievalEngine.process_query`: dispatch on the query type. The ranked
`(item_id, score)` result list is returned (the `KnowledgeResponse` is
assembled from it verbatim); rational keyword/exact scores are embedded
into the common real score domain. -/
noncomputable def processQuery (e : REngine) (q : KnowledgeQuery)
    (cat : List (String × KnowledgeItem)) (now : ℚ) :
    Except VDBErr (List (String × ℝ)) :=
  match q.query_type with
  | .semantic => semanticSearch e q cat
  | .keyword => .ok ((keywordSearchQ q cat now).map (fun p => (p.1, ((p.2 : ℚ) : ℝ))))
  | .hybrid => hybridSearch e q cat now
  | .exact => .ok ((exactSearchQ q cat now).map (fun p => (p.1, ((p.2 : ℚ) : ℝ))))

/-- State of the `KnowledgeModule` facade: the item catalog, the vector
database, the memory manager, the default collection id and the embedding
provider. -/
structure KModule where
  knowledge_items : List (String × KnowledgeItem)
  vdb : VDB
  mm : MMState
  default_collection : String
  embed : String → List ℚ

/-- `KnowledgeModule.add_knowledge_item`: inserts the catalog entry, embeds
the content and adds the vector (a raised `ValueError` propagates, leaving
the catalog entry in place), then stores a `SEMANTIC`-typed `MemoryItem`
with the merged metadata and importance = confidence. The generated uuids
are the explicit `item_id` / `eid` parameters. -/
def addKnowledgeItem (s : KModule) (content source : String) (confidence : ℚ)
    (metadata : List (String × PyValue)) (item_id eid : String) (now : ℚ) :
    Except VDBErr String × KModule :=
  let item : KnowledgeItem :=
    { item_id := item_id, content := content, source := source,
      confidence := confidence, metadata := metadata, created_at := some now }
  let catalog' := dictInsert s.knowledge_items item_id item
  let emb := s.embed content
  match addVector s.vdb s.default_collection emb item_id metadata eid with
  | .error er => (.error er, { s with knowledge_items := catalog' })
  | .ok r =>
    let md := (dictInsert (dictInsert [] ("source") (PyValue.str source))
      ("confidence") (PyValue.num confidence))
    let memory_item : MemoryItem :=
      { item_id := item_id, content := content,
        memory_type := MemoryType.semantic, embedding := emb,
        metadata := metadata.foldl (fun d kv => dictInsert d kv.1 kv.2) md,
        importance := confidence, access_count := 0, last_accessed := now }
    let mm' := (storeItem s.mm memory_item ("")).2
    (.ok item_id,
      { s with knowledge_items := catalog', vdb := r.2, mm := mm' })

/-- `KnowledgeModule.delete_knowledge_item`: checks the catalog, then
removes the catalog entry, all vectors of the item, and the memory item
(with its category references). -/
def deleteKnowledgeItem (s : KModule) (id : String) : Bool × KModule :=
  if (dlookup id s.knowledge_items).isSome = false then (false, s)
  else
    (true,
      { s with
          knowledge_items := dictErase s.knowledge_items id
          vdb := (deleteItemVectors s.vdb id).2
          mm := (deleteItem s.mm id).2 })

/-- Check that the entry `(cid, eid)` exists and belongs to item `id` (the
consistency the reverse index maintains for every pair it lists). -/
def entryOfItem (db : VDB) (cid eid id : String) : Bool :=
  match dlookup cid db.entries with
  | none => false
  | some es =>
    match dlookup eid es with
    | none => false
    | some e => e.item_id == id

/-- Tier invariant: both tier maps have duplicate-free keys and no id is
present in both. -/
def TierInv (mm : MMState) : Prop :=
  (dkeys mm.short_term).Nodup ∧ (dkeys mm.long_term).Nodup ∧
  ∀ id, dlookup id mm.short_term = none ∨ dlookup id mm.long_term = none

/-- A small knowledge item used as concrete input. -/
def itemRC : KnowledgeItem :=
  { item_id := "a", content := "a red sports car", source := "s",
    confidence := 1, metadata := [], created_at := none }

/-- A one-item catalog. -/
def catRC : List (String × KnowledgeItem) := [(("a"), itemRC)]

/-- A retrieval engine with no default collection and an empty database. -/
def eTriv : REngine := { vdb := initVDB, embed := fun _ => [], default_collection := none }

/-- An exact query whose threshold exceeds the fixed exact-match score. -/
def qCex : KnowledgeQuery :=
  { query_id := "q", query_text := "red", query_type := QueryType.exact,
    filters := none, top_k := 5, threshold := 2 }

/-- An exact query with a threshold below 1. -/
def qExW : KnowledgeQuery :=
  { query_id := "q", query_text := "red", query_type := QueryType.exact,
    filters := none, top_k := 5, threshold := mkRat 1 2 }

/-- A hybrid query with threshold 0 and empty text. -/
def qHyb : KnowledgeQuery :=
  { query_id := "q", query_text := "", query_type := QueryType.hybrid,
    filters := none, top_k := 5, threshold := 0 }

/-- A keyword query with threshold 0 and empty text. -/
def qKw : KnowledgeQuery :=
  { query_id := "q", query_text := "", query_type := QueryType.keyword,
    filters := none, top_k := 5, threshold := 0 }

/-- A short-term memory item whose content estimates to 10 tokens. -/
def mItemX : MemoryItem :=
  { item_id := "x", content := ⟨List.replicate 36 'a'⟩,
    memory_type := MemoryType.short_term, embedding := [], metadata := [],
    importance := mkRat 9 10, access_count := 0, last_accessed := 0 }

/-- A short-term memory item whose content estimates to 16 tokens. -/
def mItemY : MemoryItem :=
  { mItemX with item_id := "y", content := String.mk (List.replicate 60 'b'),
                importance := mkRat 5 10 }

/-- A short-term memory item with empty content (1 estimated token). -/
def mItemZ : MemoryItem :=
  { mItemX with item_id := "z", content := "", importance := mkRat 1 10 }

/-- A three-item short-term memory. -/
def stC1 : List (String × MemoryItem) := [(("x"), mItemX), (("y"), mItemY), (("z"), mItemZ)]

/-- A constant recency oracle. -/
def rec0 : MemoryItem → ℚ := fun _ => 0

/-- The context item built from `mItemY`. -/
def ciY : ContextItem :=
  { item_id := "y", content := ⟨List.replicate 60 'b'⟩, importance := mkRat 5 10,
    recency := 0, token_count := 16, source := "memory", metadata := [] }

/-- The context item built from `mItemZ`. -/
def ciZ : ContextItem :=
  { item_id := "z", content := "", importance := mkRat 1 10,
    recency := 0, token_count := 1, source := "memory", metadata := [] }

/-- A short-term item with id `x`. -/
def mSx : MemoryItem :=
  { item_id := "x", content := "", memory_type := MemoryType.short_term,
    embedding := [], metadata := [], importance := 1, access_count := 0,
    last_accessed := 0 }

/-- A long-term item with the same id `x`. -/
def mLx : MemoryItem := { mSx with memory_type := MemoryType.long_term }

/-- A vector database with one 2-dimensional collection. -/
def db7 : VDB :=
  { collections := [(("c"), ⟨"c", "n", 2, "flat"⟩)],
    entries := [(("c"), [])], item_mapping := [] }

/-- Entry `e1` of item `A` in the crowding-out database. -/
def entE1 : VectorEntry := ⟨"e1", [1], "A", []⟩

/-- Entry `e2` of item `A` in the crowding-out database. -/
def entE2 : VectorEntry := ⟨"e2", [1], "A", []⟩

/-- Entry `e3` of item `B` in the crowding-out database. -/
def entE3 : VectorEntry := ⟨"e3", [1], "B", []⟩

/-- A database in which item `A` owns two unit vectors inserted before the
unit vector of item `B`. -/
def db10 : VDB :=
  { collections := [(("c"), ⟨"c", "default_knowledge", 1, "flat"⟩)],
    entries := [(("c"), [(("e1"), entE1), (("e2"), entE2), (("e3"), entE3)])],
    item_mapping := [(("A"), [(("c"), ("e1")), (("c"), ("e2"))]), (("B"), [(("c"), ("e3"))])] }

/-- A vector database with one 1-dimensional collection and no entries. -/
def db9 : VDB :=
  { collections := [(("c"), ⟨"c", "default_knowledge", 1, "flat"⟩)],
    entries := [(("c"), [])], item_mapping := [] }

/-- A fresh knowledge module over `db9`. -/
def s9 : KModule :=
  { knowledge_items := [], vdb := db9, mm := initMM,
    default_collection := "c", embed := fun _ => [1] }

/-- A knowledge item with id `i`. -/
def itemI : KnowledgeItem :=
  { item_id := "i", content := "fact", source := "s", confidence := 1,
    metadata := [], created_at := some 0 }

/-- A long-term memory item with id `i`. -/
def mItemI : MemoryItem :=
  { item_id := "i", content := "fact", memory_type := MemoryType.semantic,
    embedding := [1], metadata := [], importance := 1, access_count := 0,
    last_accessed := 0 }

/-- A database holding two vectors for item `i` in one collection. -/
def db8 : VDB :=
  { collections := [(("c"), ⟨"c", "default_knowledge", 1, "flat"⟩)],
    entries := [(("c"), [(("e1"), ⟨"e1", [1], "i", []⟩), (("e2"), ⟨"e2", [2], "i", []⟩)])],
    item_mapping := [(("i"), [(("c"), ("e1")), (("c"), ("e2"))])] }

/-- A memory manager holding `i` in long-term memory and one category
referencing it. -/
def mm8 : MMState :=
  { short_term := [], long_term := [(("i"), mItemI)],
    categories := [(("g"), ⟨"g", "group", "d", none, [("i")]⟩)] }

/-- A knowledge module whose catalog, vector store and memory all know the
item `i`. -/
def s8 : KModule :=
  { knowledge_items := [(("i"), itemI)], vdb := db8, mm := mm8,
    default_collection := "c", embed := fun _ => [1] }


/-- A knowledge item carrying a `tag` metadata entry. -/
def itemMF : KnowledgeItem :=
  { item_id := "a", content := "a red sports car", source := "s",
    confidence := 1, metadata := [(("tag"), PyValue.str ("blue"))], created_at := none }

/-- A metadata-equality filter on the key `tag`. -/
def fltTag : List (String × PyValue) := [(("tag"), PyValue.str ("red"))]

theorem dlookup_eq_none_iff {d : List (String × α)} {k : String} :
    dlookup k d = none ↔ k ∉ dkeys d := by
  induction d with
  | nil => simp [dlookup, dkeys]
  | cons p rest ih =>
    by_cases h : p.1 = k
    · subst h
      simp [dlookup, dkeys]
    · simp only [dlookup, if_neg h, dkeys, List.map_cons, List.mem_cons]
      rw [ih]
      constructor
      · intro hk hc
        rcases hc with hc | hc
        · exact h hc.symm
        · exact hk hc
      · intro hk hm
        exact hk (Or.inr hm)

theorem dlookup_isSome_iff {d : List (String × α)} {k : String} :
    (dlookup k d).isSome = true ↔ k ∈ dkeys d := by
  rw [Option.isSome_iff_ne_none]
  constructor
  · intro h
    by_contra hk
    exact h (dlookup_eq_none_iff.mpr hk)
  · intro h hc
    exact (dlookup_eq_none_iff.mp hc) h

theorem dlookup_dictInsert_self (d : List (String × α)) (k : String) (v : α) :
    dlookup k (dictInsert d k v) = some v := by
  induction d with
  | nil => simp [dictInsert, dlookup]
  | cons p rest ih =>
    by_cases h : p.1 = k
    · simp [dictInsert, dlookup, h]
    · simp [dictInsert, dlookup, h, ih]

theorem dlookup_dictInsert_ne (d : List (String × α)) {k k' : String} (v : α)
    (h : k' ≠ k) : dlookup k' (dictInsert d k v) = dlookup k' d := by
  have hne : ¬ (k = k') := fun hc => h hc.symm
  induction d with
  | nil => simp [dictInsert, dlookup, hne]
  | cons p rest ih =>
    by_cases hp : p.1 = k
    · subst hp
      simp [dictInsert, dlookup, hne]
    · by_cases hp' : p.1 = k'
      · simp [dictInsert, dlookup, hp, hp', h]
      · simp [dictInsert, dlookup, hp, hp', ih]

theorem dlookup_dictErase_ne (d : List (String × α)) {k k' : String}
    (h : k' ≠ k) : dlookup k' (dictErase d k) = dlookup k' d := by
  have hne : ¬ (k = k') := fun hc => h hc.symm
  induction d with
  | nil => simp [dictErase]
  | cons p rest ih =>
    by_cases hp : p.1 = k
    · subst hp
      simp [dictErase, dlookup, hne]
    · by_cases hp' : p.1 = k'
      · simp [dictErase, dlookup, hp, hp', h]
      · simp [dictErase, dlookup, hp, hp', ih]

theorem dkeys_dictErase_sublist (d : List (String × α)) (k : String) :
    (dkeys (dictErase d k)).Sublist (dkeys d) := by
  induction d with
  | nil => simp [dictErase]
  | cons p rest ih =>
    by_cases hp : p.1 = k
    · simp only [dictErase, if_pos hp, dkeys, List.map_cons]
      exact (List.Sublist.refl _).cons _
    · simp only [dictErase, if_neg hp, dkeys, List.map_cons]
      exact ih.cons₂ _

theorem dlookup_dictErase_self {d : List (String × α)} {k : String}
    (hnd : (dkeys d).Nodup) : dlookup k (dictErase d k) = none := by
  induction d with
  | nil => simp [dictErase, dlookup]
  | cons p rest ih =>
    simp only [dkeys, List.map_cons, List.nodup_cons] at hnd
    by_cases hp : p.1 = k
    · subst hp
      simp only [dictErase, if_pos rfl]
      rw [dlookup_eq_none_iff]
      exact hnd.1
    · simp [dictErase, dlookup, hp, ih hnd.2]

theorem dkeys_dictInsert_of_mem {d : List (String × α)} {k : String} (v : α)
    (h : k ∈ dkeys d) : dkeys (dictInsert d k v) = dkeys d := by
  induction d with
  | nil => simp [dkeys] at h
  | cons p rest ih =>
    simp only [dkeys, List.map_cons, List.mem_cons] at h
    by_cases hp : p.1 = k
    · simp [dictInsert, dkeys, hp]
    · rcases h with h | h
      · exact (hp h.symm).elim
      · have h2 := ih h
        simp only [dkeys] at h2
        simp [dictInsert, dkeys, hp, h2]

theorem dkeys_dictInsert_of_not_mem {d : List (String × α)} {k : String} (v : α)
    (h : k ∉ dkeys d) : dkeys (dictInsert d k v) = dkeys d ++ [k] := by
  induction d with
  | nil => simp [dictInsert, dkeys]
  | cons p rest ih =>
    simp only [dkeys, List.map_cons, List.mem_cons] at h
    push_neg at h
    by_cases hp : p.1 = k
    · exact (h.1 hp.symm).elim
    · have h2 := ih h.2
      simp only [dkeys] at h2
      simp [dictInsert, dkeys, hp, h2]

theorem dkeys_dictInsert_nodup {d : List (String × α)} {k : String} (v : α)
    (hnd : (dkeys d).Nodup) : (dkeys (dictInsert d k v)).Nodup := by
  by_cases h : k ∈ dkeys d
  · rw [dkeys_dictInsert_of_mem v h]
    exact hnd
  · rw [dkeys_dictInsert_of_not_mem v h]
    refine List.Nodup.append hnd (List.nodup_singleton k) ?_
    intro a ha hb
    rw [List.mem_singleton] at hb
    subst hb
    exact h ha

theorem dlookup_isSome_dictErase {d : List (String × α)} {k k' : String}
    (h : (dlookup k' (dictErase d k)).isSome = true) :
    (dlookup k' d).isSome = true := by
  rw [dlookup_isSome_iff] at h ⊢
  exact (dkeys_dictErase_sublist d k).mem h

theorem mem_dictInsert {d : List (String × α)} {k : String} {v : α}
    {x : String × α} (h : x ∈ dictInsert d k v) : x = (k, v) ∨ x ∈ d := by
  induction d with
  | nil => simpa [dictInsert] using h
  | cons p rest ih =>
    by_cases hp : p.1 = k
    · simp only [dictInsert, if_pos hp] at h
      rcases List.mem_cons.mp h with h | h
      · exact Or.inl h
      · exact Or.inr (List.mem_cons_of_mem _ h)
    · simp only [dictInsert, if_neg hp] at h
      rcases List.mem_cons.mp h with h | h
      · exact Or.inr (h ▸ List.mem_cons_self p rest)
      · rcases ih h with h' | h'
        · exact Or.inl h'
        · exact Or.inr (List.mem_cons_of_mem _ h')

theorem mem_dictInsert_iff {d : List (String × α)} {k : String} {v : α}
    (hnd : (dkeys d).Nodup) {x : String × α} :
    x ∈ dictInsert d k v ↔ x = (k, v) ∨ (x ∈ d ∧ x.1 ≠ k) := by
  induction d with
  | nil =>
    constructor
    · intro h
      exact Or.inl (by simpa [dictInsert] using h)
    · rintro (h | ⟨h, _⟩)
      · simp [dictInsert, h]
      · simp at h
  | cons p rest ih =>
    simp only [dkeys, List.map_cons, List.nodup_cons] at hnd
    by_cases hp : p.1 = k
    · subst hp
      have hd : dictInsert (p :: rest) p.1 v = (p.1, v) :: rest := by
        simp [dictInsert]
      rw [hd, List.mem_cons]
      constructor
      · rintro (h | h)
        · exact Or.inl h
        · refine Or.inr ⟨List.mem_cons_of_mem _ h, ?_⟩
          intro hc
          exact hnd.1 (by rw [← hc]; exact List.mem_map_of_mem Prod.fst h)
      · rintro (h | ⟨h, hne⟩)
        · exact Or.inl h
        · rcases List.mem_cons.mp h with h | h
          · exact absurd (congrArg Prod.fst h) hne
          · exact Or.inr h
    · simp only [dictInsert, if_neg hp, List.mem_cons]
      rw [ih hnd.2]
      constructor
      · rintro (h | h | ⟨h, hne⟩)
        · subst h
          exact Or.inr ⟨Or.inl rfl, hp⟩
        · exact Or.inl h
        · exact Or.inr ⟨Or.inr h, hne⟩
      · rintro (h | ⟨h | h, hne⟩)
        · exact Or.inr (Or.inl h)
        · subst h
          exact Or.inl rfl
        · exact Or.inr (Or.inr ⟨h, hne⟩)

theorem dictErase_sublist (d : List (String × α)) (k : String) :
    (dictErase d k).Sublist d := by
  induction d with
  | nil => simp [dictErase]
  | cons p rest ih =>
    by_cases hp : p.1 = k
    · simp only [dictErase, if_pos hp]
      exact (List.Sublist.refl _).cons _
    · simp only [dictErase, if_neg hp]
      exact ih.cons₂ _

theorem mem_dictErase_key_ne {d : List (String × α)} {k : String}
    (hnd : (dkeys d).Nodup) {x : String × α} (h : x ∈ dictErase d k)
    (hk : k ∈ dkeys d) : x.1 ≠ k := by
  induction d with
  | nil => simp [dictErase] at h
  | cons p rest ih =>
    simp only [dkeys, List.map_cons, List.nodup_cons] at hnd
    by_cases hp : p.1 = k
    · subst hp
      simp only [dictErase, if_pos rfl] at h
      intro hc
      exact hnd.1 (by rw [← hc]; exact List.mem_map_of_mem Prod.fst h)
    · simp only [dictErase, if_neg hp, List.mem_cons] at h
      simp only [dkeys, List.map_cons, List.mem_cons] at hk
      rcases hk with hk | hk
      · exact (hp hk.symm).elim
      · rcases h with h | h
        · subst h
          exact hp
        · exact ih hnd.2 h hk


theorem sortStrategy_perm (strategy : String) (l : List ContextItem) :
    (sortStrategy strategy l).Perm l := by
  unfold sortStrategy
  by_cases h1 : strategy = "importance_recency"
  · simp only [if_pos h1]
    exact List.perm_insertionSort _ l
  · simp only [if_neg h1]
    by_cases h2 : strategy = "importance"
    · simp only [if_pos h2]
      exact List.perm_insertionSort _ l
    · simp only [if_neg h2]
      by_cases h3 : strategy = "recency"
      · simp only [if_pos h3]
        exact List.perm_insertionSort _ l
      · simp only [if_neg h3]
        exact List.Perm.refl l

theorem mem_sortStrategy {strategy : String} {l : List ContextItem}
    {x : ContextItem} (h : x ∈ sortStrategy strategy l) : x ∈ l :=
  (sortStrategy_perm strategy l).subset h

theorem selectItems_tokens_le (maxT : ℕ) (l : List ContextItem) :
    ∀ cur : ℕ, cur ≤ maxT → (selectItems maxT cur l).2 ≤ maxT := by
  induction l with
  | nil =>
    intro cur h
    simpa [selectItems] using h
  | cons i rest ih =>
    intro cur h
    by_cases hc : cur + i.token_count ≤ maxT
    · simp only [selectItems, if_pos hc]
      exact ih _ hc
    · simpa [selectItems, if_neg hc] using h

theorem selectItems_spec (maxT : ℕ) (l : List ContextItem) :
    ∀ cur : ℕ,
      (selectItems maxT cur l).1 = l.take (selectItems maxT cur l).1.length
      ∧ ∀ ci ∈ (l.drop (selectItems maxT cur l).1.length).take 1,
          maxT < (selectItems maxT cur l).2 + ci.token_count := by
  induction l with
  | nil =>
    intro cur
    simp [selectItems]
  | cons i rest ih =>
    intro cur
    by_cases hc : cur + i.token_count ≤ maxT
    · have h := ih (cur + i.token_count)
      simp only [selectItems, if_pos hc]
      constructor
      · simp only [List.length_cons, List.take_succ_cons]
        rw [← h.1]
      · simp only [List.length_cons, List.drop_succ_cons]
        exact h.2
    · simp only [selectItems, if_neg hc]
      constructor
      · simp
      · simp only [List.length_nil, List.drop_zero, List.take_succ_cons, List.take_zero]
        intro ci hci
        rw [List.mem_singleton] at hci
        subst hci
        exact Nat.lt_of_not_le hc

/-- C1: corrected form. For every generated context window the token count
respects the budget, the selected items are a prefix of the strategy-sorted
context items, and the first excluded item in sort order (when one exists)
is one that would overflow the remaining budget; later excluded items may
still fit, since the selection loop breaks at the first overflow. -/
theorem mm_create_context_window_budget (st : List (String × MemoryItem))
    (recf : MemoryItem → ℚ) (maxT : ℕ) (strategy wid : String) :
    (createContextWindow st recf maxT strategy wid).current_tokens
      ≤ (createContextWindow st recf maxT strategy wid).max_tokens
    ∧ (createContextWindow st recf maxT strategy wid).items
        = (sortStrategy strategy (contextItemsOf st recf)).take
            (createContextWindow st recf maxT strategy wid).items.length
    ∧ ∀ ci ∈ ((sortStrategy strategy (contextItemsOf st recf)).drop
          (createContextWindow st recf maxT strategy wid).items.length).take 1,
        (createContextWindow st recf maxT strategy wid).max_tokens
          < (createContextWindow st recf maxT strategy wid).current_tokens + ci.token_count := by
  refine ⟨?_, ?_, ?_⟩
  · exact selectItems_tokens_le maxT _ 0 (Nat.zero_le _)
  · exact (selectItems_spec maxT _ 0).1
  · exact (selectItems_spec maxT _ 0).2

/-- C1: witness for the corrected form at a concrete three-item short-term
memory with budget 11 under the `importance` strategy. -/
theorem mm_create_context_window_budget_witness :
    (ciY ∈ ((sortStrategy ("importance") (contextItemsOf stC1 rec0)).drop
        (createContextWindow stC1 rec0 11 ("importance") ("w")).items.length).take 1)
    ∧ (createContextWindow stC1 rec0 11 ("importance") ("w")).current_tokens
        ≤ (createContextWindow stC1 rec0 11 ("importance") ("w")).max_tokens
    ∧ (createContextWindow stC1 rec0 11 ("importance") ("w")).max_tokens
        < (createContextWindow stC1 rec0 11 ("importance") ("w")).current_tokens + ciY.token_count :=
  ⟨by decide,
   (mm_create_context_window_budget stC1 rec0 11 ("importance") ("w")).1,
   (mm_create_context_window_budget stC1 rec0 11 ("importance") ("w")).2.2 ciY (by decide)⟩

/-- C1: counterexample to the claim as stated. With budget 11 and the
`importance` strategy over `stC1`, the window is non-empty (it holds `x`,
10 tokens), yet the excluded short-term item `z` has an estimated token
count of 1, which fits the remaining budget `11 − 10`: the greedy loop broke
at `y` and never considered `z`. -/
theorem mm_create_context_window_greedy_counterexample :
    (createContextWindow stC1 rec0 11 ("importance") ("w")).items ≠ []
    ∧ ciZ ∈ contextItemsOf stC1 rec0
    ∧ ciZ ∉ (createContextWindow stC1 rec0 11 ("importance") ("w")).items
    ∧ ciZ.token_count
        ≤ (createContextWindow stC1 rec0 11 ("importance") ("w")).max_tokens
          - (createContextWindow stC1 rec0 11 ("importance") ("w")).current_tokens := by
  refine ⟨by decide, by decide, by decide, by decide⟩

theorem isSome_false_eq_none {o : Option α} (h : o.isSome = false) : o = none := by
  cases o
  · rfl
  · simp at h

theorem tierInv_init : TierInv initMM := by
  refine ⟨by simp [initMM, dkeys], by simp [initMM, dkeys], fun id => ?_⟩
  simp [initMM, dlookup]

theorem tierInv_moveToLongTerm {mm : MMState} (h : TierInv mm) (id : String) :
    TierInv (moveToLongTerm mm id).2 := by
  obtain ⟨hs, hl, hd⟩ := h
  unfold moveToLongTerm
  cases hcase : dlookup id mm.short_term with
  | none => exact ⟨hs, hl, hd⟩
  | some item =>
    refine ⟨hs.sublist (dkeys_dictErase_sublist _ _), dkeys_dictInsert_nodup _ hl, fun j => ?_⟩
    by_cases hj : j = id
    · subst hj
      exact Or.inl (dlookup_dictErase_self hs)
    · rw [dlookup_dictErase_ne _ hj, dlookup_dictInsert_ne _ _ hj]
      exact hd j

theorem tierInv_moveToShortTerm {mm : MMState} (h : TierInv mm) (id : String) :
    TierInv (moveToShortTerm mm id).2 := by
  obtain ⟨hs, hl, hd⟩ := h
  unfold moveToShortTerm
  cases hcase : dlookup id mm.long_term with
  | none => exact ⟨hs, hl, hd⟩
  | some item =>
    refine ⟨dkeys_dictInsert_nodup _ hs, hl.sublist (dkeys_dictErase_sublist _ _), fun j => ?_⟩
    by_cases hj : j = id
    · subst hj
      exact Or.inr (dlookup_dictErase_self hl)
    · rw [dlookup_dictErase_ne _ hj, dlookup_dictInsert_ne _ _ hj]
      exact (hd j).symm.symm

theorem tierInv_runOp {mm : MMState} {op : MOp} (h : TierInv mm)
    (hok : storeOK mm op = true) : TierInv (runOp mm op) := by
  obtain ⟨hs, hl, hd⟩ := h
  cases op with
  | store item fid =>
    simp only [storeOK, Bool.and_eq_true, Bool.not_eq_true'] at hok
    simp only [runOp, storeItem]
    by_cases ht : (if item.item_id = "" then { item with item_id := fid } else item).memory_type
        = MemoryType.short_term
    · simp only [if_pos ht]
      have hid : (if item.item_id = "" then { item with item_id := fid } else item).item_id
          = (if item.item_id = "" then fid else item.item_id) := by
        by_cases he : item.item_id = "" <;> simp [he]
      refine ⟨by rw [hid]; exact dkeys_dictInsert_nodup _ hs, hl, fun j => ?_⟩
      by_cases hj : j = (if item.item_id = "" then fid else item.item_id)
      · subst hj
        exact Or.inr (isSome_false_eq_none hok.2)
      · rw [hid, dlookup_dictInsert_ne _ _ hj]
        exact hd j
    · simp only [if_neg ht]
      have hid : (if item.item_id = "" then { item with item_id := fid } else item).item_id
          = (if item.item_id = "" then fid else item.item_id) := by
        by_cases he : item.item_id = "" <;> simp [he]
      refine ⟨hs, by rw [hid]; exact dkeys_dictInsert_nodup _ hl, fun j => ?_⟩
      by_cases hj : j = (if item.item_id = "" then fid else item.item_id)
      · subst hj
        exact Or.inl (isSome_false_eq_none hok.1)
      · rw [hid, dlookup_dictInsert_ne _ _ hj]
        exact hd j
  | retrieve id now =>
    simp only [runOp, retrieveItem]
    cases hcase : dlookup id mm.short_term with
    | some item =>
      have hmem : id ∈ dkeys mm.short_term := by
        rw [← dlookup_isSome_iff, hcase]
        rfl
      refine ⟨by rw [dkeys_dictInsert_of_mem _ hmem]; exact hs, hl, fun j => ?_⟩
      by_cases hj : j = id
      · subst hj
        rcases hd j with h1 | h1
        · rw [hcase] at h1
          exact absurd h1 (by simp)
        · exact Or.inr h1
      · rw [dlookup_dictInsert_ne _ _ hj]
        exact hd j
    | none =>
      cases hcase2 : dlookup id mm.long_term with
      | some item =>
        have hmem : id ∈ dkeys mm.long_term := by
          rw [← dlookup_isSome_iff, hcase2]
          rfl
        refine ⟨hs, by rw [dkeys_dictInsert_of_mem _ hmem]; exact hl, fun j => ?_⟩
        by_cases hj : j = id
        · subst hj
          exact Or.inl hcase
        · rw [dlookup_dictInsert_ne _ _ hj]
          exact hd j
      | none => exact ⟨hs, hl, hd⟩
  | update item =>
    simp only [runOp, updateItem]
    by_cases hcase : (dlookup item.item_id mm.short_term).isSome = true
    · simp only [if_pos hcase]
      have hmem : item.item_id ∈ dkeys mm.short_term := dlookup_isSome_iff.mp hcase
      refine ⟨by rw [dkeys_dictInsert_of_mem _ hmem]; exact hs, hl, fun j => ?_⟩
      by_cases hj : j = item.item_id
      · subst hj
        rcases hd item.item_id with h1 | h1
        · rw [h1] at hcase
          exact absurd hcase (by simp)
        · exact Or.inr h1
      · rw [dlookup_dictInsert_ne _ _ hj]
        exact hd j
    · simp only [if_neg hcase]
      by_cases hcase2 : (dlookup item.item_id mm.long_term).isSome = true
      · simp only [if_pos hcase2]
        have hmem : item.item_id ∈ dkeys mm.long_term := dlookup_isSome_iff.mp hcase2
        refine ⟨hs, by rw [dkeys_dictInsert_of_mem _ hmem]; exact hl, fun j => ?_⟩
        by_cases hj : j = item.item_id
        · subst hj
          rcases hd item.item_id with h1 | h1
          · exact Or.inl h1
          · rw [h1] at hcase2
            exact absurd hcase2 (by simp)
        · rw [dlookup_dictInsert_ne _ _ hj]
          exact hd j
      · simp only [if_neg hcase2]
        exact ⟨hs, hl, hd⟩
  | delete id =>
    simp only [runOp, deleteItem]
    by_cases hcase : (dlookup id mm.short_term).isSome = true
    · simp only [if_pos hcase]
      refine ⟨hs.sublist (dkeys_dictErase_sublist _ _), hl, fun j => ?_⟩
      rcases hd j with h1 | h1
      · refine Or.inl ?_
        rw [dlookup_eq_none_iff] at h1 ⊢
        intro hc
        exact h1 ((dkeys_dictErase_sublist _ _).mem hc)
      · exact Or.inr h1
    · simp only [if_neg hcase]
      by_cases hcase2 : (dlookup id mm.long_term).isSome = true
      · simp only [if_pos hcase2]
        refine ⟨hs, hl.sublist (dkeys_dictErase_sublist _ _), fun j => ?_⟩
        rcases hd j with h1 | h1
        · exact Or.inl h1
        · refine Or.inr ?_
          rw [dlookup_eq_none_iff] at h1 ⊢
          intro hc
          exact h1 ((dkeys_dictErase_sublist _ _).mem hc)
      · simp only [if_neg hcase2]
        exact ⟨hs, hl, hd⟩
  | moveLT id => exact tierInv_moveToLongTerm ⟨hs, hl, hd⟩ id
  | moveST id => exact tierInv_moveToShortTerm ⟨hs, hl, hd⟩ id
  | optimize =>
    simp only [runOp, optimizeMemory]
    generalize (mm.short_term.filter _).map Prod.fst = ids
    induction ids generalizing mm with
    | nil => exact ⟨hs, hl, hd⟩
    | cons i rest ih =>
      simp only [List.foldl_cons]
      have h1 := tierInv_moveToLongTerm ⟨hs, hl, hd⟩ i
      exact ih h1.1 h1.2.1 h1.2.2 rfl

theorem tierInv_runOps : ∀ (ops : List MOp) (mm : MMState), TierInv mm →
    freshRun mm ops = true → TierInv (runOps mm ops) := by
  intro ops
  induction ops with
  | nil =>
    intro mm h _
    exact h
  | cons op rest ih =>
    intro mm h hf
    simp only [freshRun, Bool.and_eq_true] at hf
    simp only [runOps, List.foldl_cons]
    exact ih (runOp mm op) (tierInv_runOp h hf.1) hf.2

/-- C3: corrected form. Starting from the empty manager, any operation
sequence in which every `store_item` call uses an id not already present in
either tier map (as generated uuids are) keeps each id in at most one tier
map, and a move of an id absent from its source tier returns failure and
leaves the state unchanged. Without the freshness restriction `store_item`
can plant one id in both tiers, since it never checks the other tier. -/
theorem mm_tier_exclusive (ops : List MOp) (mm : MMState) (id : String) :
    (freshRun initMM ops = true →
      ∀ i, dlookup i (runOps initMM ops).short_term = none
        ∨ dlookup i (runOps initMM ops).long_term = none)
    ∧ (dlookup id mm.short_term = none → moveToLongTerm mm id = (false, mm))
    ∧ (dlookup id mm.long_term = none → moveToShortTerm mm id = (false, mm)) := by
  refine ⟨fun hf => (tierInv_runOps ops initMM tierInv_init hf).2.2, fun h => ?_, fun h => ?_⟩
  · simp [moveToLongTerm, h]
  · simp [moveToShortTerm, h]

/-- C3: witness for the corrected form: a fresh store of `x` into short-term
memory, after which `x` sits in at most one tier, and failing moves of the
absent id `y` leave the empty manager unchanged. -/
theorem mm_tier_exclusive_witness :
    freshRun initMM [MOp.store mSx ("")] = true
    ∧ dlookup ("y") initMM.short_term = none
    ∧ dlookup ("y") initMM.long_term = none
    ∧ (dlookup ("x") (runOps initMM [MOp.store mSx ("")]).short_term = none
        ∨ dlookup ("x") (runOps initMM [MOp.store mSx ("")]).long_term = none)
    ∧ moveToLongTerm initMM ("y") = (false, initMM)
    ∧ moveToShortTerm initMM ("y") = (false, initMM) :=
  ⟨by decide, by decide, by decide,
   (mm_tier_exclusive [MOp.store mSx ("")] initMM ("y")).1 (by decide) ("x"),
   (mm_tier_exclusive [MOp.store mSx ("")] initMM ("y")).2.1 (by decide),
   (mm_tier_exclusive [MOp.store mSx ("")] initMM ("y")).2.2 (by decide)⟩

/-- C3: counterexample to the claim as stated. Two `store_item` calls with
the same id `x` — one short-term, one long-term — leave `x` present in both
tier maps at once: `store_item` never checks the other tier. -/
theorem mm_tier_exclusive_counterexample :
    (dlookup ("x") (runOps initMM [MOp.store mSx (""), MOp.store mLx ("")]).short_term).isSome = true
    ∧ (dlookup ("x") (runOps initMM [MOp.store mSx (""), MOp.store mLx ("")]).long_term).isSome = true := by
  refine ⟨by decide, by decide⟩

theorem matchesFilters_false_of_mem {now : ℚ} {item : KnowledgeItem}
    {filters : List (String × PyValue)} {k : String} {v : PyValue}
    (hm : (k, v) ∈ filters) (hf : filterOne now item k v = false) :
    matchesFilters now item filters = false := by
  unfold matchesFilters
  by_contra hc
  rw [Bool.not_eq_false, List.all_eq_true] at hc
  have h2 := hc (k, v) hm
  rw [hf] at h2
  exact Bool.false_ne_true h2

theorem filterOne_source_false (now : ℚ) (item : KnowledgeItem) {v : PyValue}
    (hv : v ≠ PyValue.str item.source) : filterOne now item ("source") v = false := by
  unfold filterOne
  rw [if_pos ⟨rfl, hv⟩]

theorem filterOne_min_confidence_false (now : ℚ) (item : KnowledgeItem) {v : PyValue}
    (hv : item.confidence < pyFloat v) :
    filterOne now item ("min_confidence") v = false := by
  unfold filterOne
  rw [if_neg (by simp), if_pos ⟨rfl, hv⟩]

theorem filterOne_max_age_false (now : ℚ) (item : KnowledgeItem) {v : PyValue} {t : ℚ}
    (hc : item.created_at = some t) (hv : pyFloat v < (now - t) / 86400) :
    filterOne now item ("max_age") v = false := by
  unfold filterOne
  rw [if_neg (by simp), if_neg (by simp)]
  rw [if_pos ⟨rfl, by rw [hc]; rfl⟩, hc]
  simp only [Option.getD_some]
  exact decide_eq_false (not_le.mpr hv)

theorem filterOne_max_age_true (now : ℚ) (item : KnowledgeItem) {v : PyValue} {t : ℚ}
    (hc : item.created_at = some t) (hv : (now - t) / 86400 ≤ pyFloat v) :
    filterOne now item ("max_age") v = true := by
  unfold filterOne
  rw [if_neg (by simp), if_neg (by simp)]
  rw [if_pos ⟨rfl, by rw [hc]; rfl⟩, hc]
  simp only [Option.getD_some]
  exact decide_eq_true hv

theorem filterOne_metadata_false (now : ℚ) (item : KnowledgeItem) (k : String)
    {v w : PyValue} (hna : ¬(k = "max_age" ∧ item.created_at.isSome = true))
    (hl : dlookup k item.metadata = some w) (hne : w ≠ v) :
    filterOne now item k v = false := by
  unfold filterOne
  split
  · rfl
  · split
    · rfl
    · rw [hl]
      simpa using hne

/-- C4: corrected form. The shared filter predicate of keyword, hybrid and
exact search excludes an item on a `source` mismatch, on confidence below a
`min_confidence` value, and on age (from a present `created_at`) above a
`max_age` value. A key that the item's metadata carries with a different
value excludes it only when the key is not captured by an earlier `elif`
guard: for a `max_age` key with `created_at` present the age branch is
taken and the metadata check is skipped, so an age within bound keeps the
item even if its metadata carries a conflicting `max_age` entry. A metadata
key absent from the item does not exclude it (the
`key in item.metadata and ...` guard falls through), unlike the
vector-database metadata filter. -/
theorem re_matches_filters_excludes (now : ℚ) (item : KnowledgeItem)
    (filters : List (String × PyValue)) (k : String) (v : PyValue)
    (hm : (k, v) ∈ filters) :
    (k = "source" → v ≠ PyValue.str item.source → matchesFilters now item filters = false)
    ∧ (k = "min_confidence" → item.confidence < pyFloat v →
        matchesFilters now item filters = false)
    ∧ (k = "max_age" → ∀ t : ℚ, item.created_at = some t →
        pyFloat v < (now - t) / 86400 → matchesFilters now item filters = false)
    ∧ (¬(k = "max_age" ∧ item.created_at.isSome = true) →
        ∀ w : PyValue, dlookup k item.metadata = some w → w ≠ v →
        matchesFilters now item filters = false)
    ∧ (k = "max_age" → ∀ t : ℚ, item.created_at = some t →
        (now - t) / 86400 ≤ pyFloat v → filterOne now item k v = true) := by
  refine ⟨?_, ?_, ?_, ?_, ?_⟩
  · intro hk hv
    subst hk
    exact matchesFilters_false_of_mem hm (filterOne_source_false now item hv)
  · intro hk hv
    subst hk
    exact matchesFilters_false_of_mem hm (filterOne_min_confidence_false now item hv)
  · intro hk t hc hv
    subst hk
    exact matchesFilters_false_of_mem hm (filterOne_max_age_false now item hc hv)
  · intro hna w hl hne
    exact matchesFilters_false_of_mem hm (filterOne_metadata_false now item k hna hl hne)
  · intro hk t hc hv
    subst hk
    exact filterOne_max_age_true now item hc hv

/-- C4: witness for the corrected form at a concrete item whose metadata
carries `tag = blue` against the filter `tag = red` (the key `tag` is not
captured by the `max_age` guard). -/
theorem re_matches_filters_excludes_witness :
    ((("tag"), PyValue.str ("red")) ∈ fltTag)
    ∧ ¬(("tag" : String) = "max_age" ∧ itemMF.created_at.isSome = true)
    ∧ dlookup ("tag") itemMF.metadata = some (PyValue.str ("blue"))
    ∧ PyValue.str ("blue") ≠ PyValue.str ("red")
    ∧ matchesFilters 0 itemMF fltTag = false :=
  ⟨by decide, by decide, by decide, by decide,
   (re_matches_filters_excludes 0 itemMF fltTag ("tag") (PyValue.str ("red"))
      (by decide)).2.2.2.1 (by decide) (PyValue.str ("blue")) (by decide) (by decide)⟩

/-- C4: counterexample to the claim as stated. The item `itemRC` does not
carry the metadata key `tag` at all, yet the predicate keeps it: a missing
metadata key never excludes an item in `_matches_filters`. -/
theorem re_matches_filters_missing_key_counterexample :
    dlookup ("tag") itemRC.metadata = none
    ∧ matchesFilters 0 itemRC fltTag = true := by
  refine ⟨by decide, by decide⟩

theorem dotQ_self (v : List ℚ) : dotQ v v = sumSq v := by
  induction v with
  | nil => rfl
  | cons a rest ih =>
    simp only [dotQ, sumSq, List.zipWith_cons_cons, List.map_cons, List.sum_cons] at *
    rw [ih]

theorem sumSq_nonneg (v : List ℚ) : 0 ≤ sumSq v := by
  induction v with
  | nil => simp [sumSq]
  | cons a rest ih =>
    simp only [sumSq, List.map_cons, List.sum_cons] at *
    have := mul_self_nonneg a
    linarith

theorem sumSq_pos {v : List ℚ} (hv : ∃ x ∈ v, x ≠ 0) : 0 < sumSq v := by
  induction v with
  | nil => simp at hv
  | cons a rest ih =>
    simp only [sumSq, List.map_cons, List.sum_cons]
    by_cases ha : a = 0
    · subst ha
      have hv' : ∃ x ∈ rest, x ≠ 0 := by
        rcases hv with ⟨x, hx, hx0⟩
        rcases List.mem_cons.mp hx with h | h
        · exact absurd h hx0
        · exact ⟨x, h, hx0⟩
      have := ih hv'
      simp only [sumSq] at this
      linarith
    · have h1 : 0 < a * a := mul_self_pos.mpr ha
      have h2 := sumSq_nonneg rest
      simp only [sumSq] at h2
      linarith

theorem dotQ_neg_right (v : List ℚ) : dotQ v (v.map (fun a => -a)) = -(sumSq v) := by
  induction v with
  | nil => simp [dotQ, sumSq]
  | cons a rest ih =>
    simp only [dotQ, sumSq, List.map_cons, List.zipWith_cons_cons, List.sum_cons] at *
    rw [ih]
    ring

theorem sumSq_map_neg (v : List ℚ) : sumSq (v.map (fun a => -a)) = sumSq v := by
  induction v with
  | nil => simp [sumSq]
  | cons a rest ih =>
    simp only [sumSq, List.map_cons, List.sum_cons] at *
    rw [ih]
    ring_nf

theorem sumSq_replicate_zero (n : ℕ) : sumSq (List.replicate n 0) = 0 := by
  induction n with
  | zero => simp [sumSq]
  | succ m ih =>
    simp only [List.replicate_succ, sumSq, List.map_cons, List.sum_cons] at *
    rw [ih]
    ring

/-- C6: the cosine similarity of `_cosine_similarity` satisfies
`similarity(v, v) = 1` and `similarity(v, −v) = −1` for every nonzero
vector `v`, and is `0` whenever either argument is the zero vector (the
zero-magnitude guard fires). -/
theorem vdb_cosine_similarity_props (v : List ℚ) (hv : ∃ x ∈ v, x ≠ 0) :
    cosineSim v v = 1
    ∧ cosineSim v (v.map (fun a => -a)) = -1
    ∧ ∀ w : List ℚ, cosineSim w (List.replicate w.length 0) = 0
        ∧ cosineSim (List.replicate w.length 0) w = 0 := by
  have hS : 0 < sumSq v := sumSq_pos hv
  have hSR : (0:ℝ) < ((sumSq v : ℚ) : ℝ) := by exact_mod_cast hS
  have hsq : Real.sqrt ((sumSq v : ℚ) : ℝ) ≠ 0 := ne_of_gt (Real.sqrt_pos.mpr hSR)
  refine ⟨?_, ?_, ?_⟩
  · simp only [cosineSim]
    rw [if_neg (fun h => hsq (h.elim id id))]
    rw [dotQ_self, Real.mul_self_sqrt (le_of_lt hSR)]
    exact div_self (ne_of_gt hSR)
  · simp only [cosineSim, sumSq_map_neg, dotQ_neg_right]
    rw [if_neg (fun h => hsq (h.elim id id))]
    rw [Real.mul_self_sqrt (le_of_lt hSR)]
    push_cast
    rw [neg_div]
    rw [div_self (by exact_mod_cast ne_of_gt hS)]
  · intro w
    constructor
    · simp only [cosineSim, sumSq_replicate_zero]
      rw [if_pos (Or.inr (by simp))]
    · simp only [cosineSim, sumSq_replicate_zero]
      rw [if_pos (Or.inl (by simp))]

/-- C6: witness at the nonzero vector `[3]`. -/
theorem vdb_cosine_similarity_props_witness :
    (∃ x ∈ [(3:ℚ)], x ≠ 0)
    ∧ cosineSim [(3:ℚ)] [(3:ℚ)] = 1
    ∧ cosineSim [(3:ℚ)] ([(3:ℚ)].map (fun a => -a)) = -1 :=
  ⟨by decide, (vdb_cosine_similarity_props [(3:ℚ)] (by decide)).1,
   (vdb_cosine_similarity_props [(3:ℚ)] (by decide)).2.1⟩

/-- C7: inserting a vector whose length differs from the dimension of an
existing collection fails with the dimension-mismatch error, and the
database state after the call — entries and reverse item index included —
is exactly the state before it (the checks precede every mutation). -/
theorem vdb_add_vector_dimension_mismatch (db : VDB) (cid : String) (v : List ℚ)
    (iid : String) (md : List (String × PyValue)) (eid : String) (c : VectorCollection)
    (h1 : dlookup cid db.collections = some c) (h2 : v.length ≠ c.dimension) :
    addVector db cid v iid md eid
      = Except.error (VDBErr.dimensionMismatch c.dimension v.length)
    ∧ addVectorState db cid v iid md eid = db := by
  have hA : addVector db cid v iid md eid
      = Except.error (VDBErr.dimensionMismatch c.dimension v.length) := by
    unfold addVector
    rw [h1]
    simp [h2]
  refine ⟨hA, ?_⟩
  unfold addVectorState
  rw [hA]

/-- C7: witness at a 2-dimensional collection and a 1-dimensional vector. -/
theorem vdb_add_vector_dimension_mismatch_witness :
    dlookup ("c") db7.collections = some ⟨"c", "n", 2, "flat"⟩
    ∧ [(1:ℚ)].length ≠ (⟨"c", "n", 2, "flat"⟩ : VectorCollection).dimension
    ∧ addVector db7 ("c") [(1:ℚ)] ("i") [] ("e")
        = Except.error (VDBErr.dimensionMismatch 2 1)
    ∧ addVectorState db7 ("c") [(1:ℚ)] ("i") [] ("e") = db7 :=
  ⟨by decide, by decide,
   (vdb_add_vector_dimension_mismatch db7 ("c") [(1:ℚ)] ("i") [] ("e")
      ⟨"c", "n", 2, "flat"⟩ (by decide) (by decide)).1,
   (vdb_add_vector_dimension_mismatch db7 ("c") [(1:ℚ)] ("i") [] ("e")
      ⟨"c", "n", 2, "flat"⟩ (by decide) (by decide)).2⟩

theorem mem_window_items {st : List (String × MemoryItem)} {recf : MemoryItem → ℚ}
    {maxT : ℕ} {strat wid : String} {ci : ContextItem}
    (h : ci ∈ (createContextWindow st recf maxT strat wid).items) :
    ci ∈ contextItemsOf st recf := by
  change ci ∈ (selectItems maxT 0 (sortStrategy strat (contextItemsOf st recf))).1 at h
  rw [(selectItems_spec maxT (sortStrategy strat (contextItemsOf st recf)) 0).1] at h
  exact mem_sortStrategy (List.mem_of_mem_take h)

theorem contextItemsOf_item_id {st : List (String × MemoryItem)}
    {recf : MemoryItem → ℚ} {ci : ContextItem} (h : ci ∈ contextItemsOf st recf) :
    ∃ p ∈ st, ci.item_id = p.2.item_id := by
  unfold contextItemsOf at h
  rcases List.mem_map.mp h with ⟨item, hitem, rfl⟩
  rcases List.mem_map.mp hitem with ⟨p, hp, rfl⟩
  exact ⟨p, hp, rfl⟩

theorem storeItem_not_short {mm : MMState} {item : MemoryItem} {fid : String}
    (h : item.memory_type ≠ MemoryType.short_term) :
    (storeItem mm item fid).2.short_term = mm.short_term
    ∧ ∃ mi, dlookup (if item.item_id = "" then fid else item.item_id)
          (storeItem mm item fid).2.long_term = some mi
        ∧ mi.memory_type = item.memory_type := by
  unfold storeItem
  have htype : (if item.item_id = "" then { item with item_id := fid } else item).memory_type
      = item.memory_type := by
    by_cases he : item.item_id = "" <;> simp [he]
  have hkey : (if item.item_id = "" then { item with item_id := fid } else item).item_id
      = (if item.item_id = "" then fid else item.item_id) := by
    by_cases he : item.item_id = "" <;> simp [he]
  rw [if_neg (by rw [htype]; exact h)]
  refine ⟨rfl, ⟨_, ?_, htype⟩⟩
  rw [← hkey]
  exact dlookup_dictInsert_self _ _ _

/-- C9: every memory item created by `add_knowledge_item` is typed
`SEMANTIC` and therefore stored in the long-term tier map; the short-term
map is untouched, so a context window built immediately afterwards (from
any recency oracle, budget and strategy) never contains the new item id,
and an explicit `move_to_short_term` of the new id succeeds. -/
theorem km_add_knowledge_item_long_term (s : KModule) (content source : String)
    (confidence : ℚ) (md : List (String × PyValue)) (iid eid : String) (now : ℚ)
    (hok : (addKnowledgeItem s content source confidence md iid eid now).1
      = Except.ok iid)
    (hfresh : ∀ p ∈ s.mm.short_term, p.2.item_id ≠ iid) :
    (addKnowledgeItem s content source confidence md iid eid now).2.mm.short_term
      = s.mm.short_term
    ∧ (∃ mi, dlookup iid
          (addKnowledgeItem s content source confidence md iid eid now).2.mm.long_term
          = some mi ∧ mi.memory_type = MemoryType.semantic)
    ∧ (∀ (recf : MemoryItem → ℚ) (maxT : ℕ) (strat wid : String) (ci : ContextItem),
        ci ∈ (createContextWindow
            (addKnowledgeItem s content source confidence md iid eid now).2.mm.short_term
            recf maxT strat wid).items
        → ci.item_id ≠ iid)
    ∧ (moveToShortTerm
        (addKnowledgeItem s content source confidence md iid eid now).2.mm iid).1 = true := by
  simp only [addKnowledgeItem] at hok ⊢
  cases haddv : addVector s.vdb s.default_collection (s.embed content) iid md eid with
  | error er =>
    rw [haddv] at hok
    exact Except.noConfusion hok
  | ok r =>
    have hsem := @storeItem_not_short s.mm
      { item_id := iid, content := content, memory_type := MemoryType.semantic,
        embedding := s.embed content,
        metadata := List.foldl (fun d kv => dictInsert d kv.1 kv.2)
          (dictInsert (dictInsert [] ("source") (PyValue.str source))
            ("confidence") (PyValue.num confidence)) md,
        importance := confidence, access_count := 0, last_accessed := now }
      ("") (by simp)
    have hkey : (if iid = "" then "" else iid) = iid := by
      by_cases he : iid = "" <;> simp [he]
    rw [hkey] at hsem
    refine ⟨hsem.1, hsem.2, ?_, ?_⟩
    · intro recf maxT strat wid ci hci
      rw [hsem.1] at hci
      rcases contextItemsOf_item_id (mem_window_items hci) with ⟨p, hp, heq⟩
      rw [heq]
      exact hfresh p hp
    · rcases hsem.2 with ⟨mi, hmi, _⟩
      unfold moveToShortTerm
      rw [hmi]

/-- C9: witness at a fresh module: the item `i1` lands in long-term memory,
stays out of a freshly built context window's source tier, and can be moved
to short-term memory explicitly. -/
theorem km_add_knowledge_item_long_term_witness :
    (addKnowledgeItem s9 ("hello") ("src") (mkRat 8 10) [] ("i1") ("e1") 0).1
      = Except.ok ("i1")
    ∧ (addKnowledgeItem s9 ("hello") ("src") (mkRat 8 10) [] ("i1") ("e1") 0).2.mm.short_term
        = s9.mm.short_term
    ∧ (∃ mi, dlookup ("i1")
          (addKnowledgeItem s9 ("hello") ("src") (mkRat 8 10) [] ("i1") ("e1") 0).2.mm.long_term
          = some mi ∧ mi.memory_type = MemoryType.semantic)
    ∧ (moveToShortTerm
        (addKnowledgeItem s9 ("hello") ("src") (mkRat 8 10) [] ("i1") ("e1") 0).2.mm ("i1")).1
        = true :=
  ⟨rfl,
   (km_add_knowledge_item_long_term s9 ("hello") ("src") (mkRat 8 10) [] ("i1") ("e1") 0
      rfl (by simp [s9, initMM])).1,
   (km_add_knowledge_item_long_term s9 ("hello") ("src") (mkRat 8 10) [] ("i1") ("e1") 0
      rfl (by simp [s9, initMM])).2.1,
   (km_add_knowledge_item_long_term s9 ("hello") ("src") (mkRat 8 10) [] ("i1") ("e1") 0
      rfl (by simp [s9, initMM])).2.2.2⟩

theorem pairwise_snd_cast {l : List (String × ℚ)} (h : List.Pairwise revScoreQ l) :
    List.Pairwise (fun a b : String × ℝ => b.2 ≤ a.2)
      (l.map (fun p => (p.1, ((p.2 : ℚ) : ℝ)))) := by
  rw [List.pairwise_map]
  refine h.imp ?_
  intro a b hab
  exact Rat.cast_le.mpr hab

theorem pairwise_rev_of_const {l : List (String × ℝ)} (h : ∀ p ∈ l, p.2 = 1) :
    List.Pairwise (fun a b : String × ℝ => b.2 ≤ a.2) l := by
  induction l with
  | nil => exact List.Pairwise.nil
  | cons a rest ih =>
    refine List.Pairwise.cons (fun b hb => ?_) (ih (fun p hp => h p (List.mem_cons_of_mem _ hp)))
    rw [h a (List.mem_cons_self _ _), h b (List.mem_cons_of_mem _ hb)]

theorem searchVectors_ok_spec {db : VDB} {cid : String} {qv : List ℚ} {k : ℕ}
    {t : ℚ} {f : Option (List (String × PyValue))} {res : List (String × ℝ)}
    (h : searchVectors db cid qv k t f = Except.ok res) :
    res.length ≤ k ∧ List.Pairwise revScoreR res ∧ ∀ p ∈ res, ((t : ℚ) : ℝ) ≤ p.2 := by
  unfold searchVectors at h
  split at h
  · exact Except.noConfusion h
  · split at h
    · exact Except.noConfusion h
    · injection h with h2
      subst h2
      refine ⟨List.length_take_le _ _, ?_, ?_⟩
      · exact (List.sorted_insertionSort revScoreR _).sublist (List.take_sublist _ _)
      · intro p hp
        have hp2 := List.mem_of_mem_take hp
        have hp3 := (List.perm_insertionSort revScoreR _).subset hp2
        rcases List.mem_filterMap.mp hp3 with ⟨a, _, hfa⟩
        split at hfa
        · exact Option.noConfusion hfa
        · by_cases hcond : ((t : ℚ) : ℝ) ≤ cosineSim qv a.2.vector
          · rw [if_pos hcond] at hfa
            injection hfa with h4
            rw [← h4]
            exact hcond
          · rw [if_neg hcond] at hfa
            exact Option.noConfusion hfa

theorem dedupItems_snd_sublist (db : VDB) (cid : String) :
    ∀ (l : List (String × ℝ)) (seen : List String),
      ((dedupItems db cid l seen).map Prod.snd).Sublist (l.map Prod.snd) := by
  intro l
  induction l with
  | nil =>
    intro seen
    simp [dedupItems]
  | cons p rest ih =>
    intro seen
    by_cases hm : entryItemId db cid p.1 ∈ seen
    · simp only [dedupItems, if_pos hm, List.map_cons]
      exact (ih seen).trans ((List.Sublist.refl _).cons _)
    · simp only [dedupItems, if_neg hm, List.map_cons]
      exact (ih _).cons₂ _

theorem dedupItems_snd_mem (db : VDB) (cid : String) :
    ∀ (l : List (String × ℝ)) (seen : List String) (p : String × ℝ),
      p ∈ dedupItems db cid l seen → p.2 ∈ l.map Prod.snd := by
  intro l
  induction l with
  | nil =>
    intro seen p hp
    simp [dedupItems] at hp
  | cons a rest ih =>
    intro seen p hp
    by_cases hm : entryItemId db cid a.1 ∈ seen
    · simp only [dedupItems, if_pos hm] at hp
      exact List.mem_cons_of_mem _ (ih seen p hp)
    · simp only [dedupItems, if_neg hm] at hp
      rcases List.mem_cons.mp hp with h | h
      · rw [h]
        exact List.mem_cons_self _ _
      · exact List.mem_cons_of_mem _ (ih _ p h)

theorem searchItems_ok_spec {db : VDB} {cid : String} {qv : List ℚ} {k : ℕ}
    {t : ℚ} {f : Option (List (String × PyValue))} {res : List (String × ℝ)}
    (h : searchItems db cid qv k t f = Except.ok res) :
    res.length ≤ k ∧ List.Pairwise revScoreR res ∧ ∀ p ∈ res, ((t : ℚ) : ℝ) ≤ p.2 := by
  unfold searchItems at h
  cases hv : searchVectors db cid qv k t f with
  | error er =>
    rw [hv] at h
    exact Except.noConfusion h
  | ok vres =>
    rw [hv] at h
    have hres : res = dedupItems db cid vres [] := by
      injection h with h2
      exact h2.symm
    subst hres
    obtain ⟨h1, h2, h3⟩ := searchVectors_ok_spec hv
    refine ⟨?_, ?_, ?_⟩
    · have hlen := (dedupItems_snd_sublist db cid vres []).length_le
      simp only [List.length_map] at hlen
      exact le_trans hlen h1
    · have hm2 : List.Pairwise (fun a b : ℝ => b ≤ a) (vres.map Prod.snd) := by
        rw [List.pairwise_map]
        exact h2.imp (fun hab => hab)
      have hm3 := hm2.sublist (dedupItems_snd_sublist db cid vres [])
      rw [List.pairwise_map] at hm3
      exact hm3.imp (fun hab => hab)
    · intro p hp
      have hmem := dedupItems_snd_mem db cid vres [] p hp
      rcases List.mem_map.mp hmem with ⟨a, ha, heq⟩
      rw [← heq]
      exact h3 a ha

theorem keywordSearchQ_spec (q : KnowledgeQuery) (cat : List (String × KnowledgeItem))
    (now : ℚ) :
    (keywordSearchQ q cat now).length ≤ q.top_k
    ∧ List.Pairwise revScoreQ (keywordSearchQ q cat now)
    ∧ ∀ p ∈ keywordSearchQ q cat now, q.threshold ≤ p.2 := by
  unfold keywordSearchQ
  refine ⟨List.length_take_le _ _,
    (List.sorted_insertionSort revScoreQ _).sublist (List.take_sublist _ _), ?_⟩
  intro p hp
  have hp2 := List.mem_of_mem_take hp
  have hp3 := (List.perm_insertionSort revScoreQ _).subset hp2
  rcases List.mem_filterMap.mp hp3 with ⟨a, _, hfa⟩
  split at hfa
  · exact Option.noConfusion hfa
  · by_cases hcond : q.threshold ≤ keywordScore q a.2
    · rw [if_pos hcond] at hfa
      injection hfa with h4
      rw [← h4]
      exact hcond
    · rw [if_neg hcond] at hfa
      exact Option.noConfusion hfa

theorem exactSearchQ_spec (q : KnowledgeQuery) (cat : List (String × KnowledgeItem))
    (now : ℚ) :
    (exactSearchQ q cat now).length ≤ q.top_k
    ∧ ∀ p ∈ exactSearchQ q cat now, p.2 = 1 := by
  unfold exactSearchQ
  refine ⟨List.length_take_le _ _, ?_⟩
  intro p hp
  have hp2 := List.mem_of_mem_take hp
  have hp3 := (List.perm_insertionSort idLe _).subset hp2
  rcases List.mem_filterMap.mp hp3 with ⟨a, _, hfa⟩
  split at hfa
  · exact Option.noConfusion hfa
  · split at hfa
    · injection hfa with h4
      rw [← h4]
    · exact Option.noConfusion hfa

theorem hybridCombined_score {q : KnowledgeQuery} {sres : List (String × ℝ)}
    {kres : List (String × ℚ)} {p : String × ℝ}
    (hp : p ∈ hybridCombined q sres kres) :
    p.2 = hybridScore sres kres p.1 ∧ ((q.threshold : ℚ) : ℝ) ≤ p.2 := by
  unfold hybridCombined at hp
  rcases List.mem_filterMap.mp hp with ⟨id, _, hfa⟩
  by_cases hcond : ((q.threshold : ℚ) : ℝ) ≤ hybridScore sres kres id
  · rw [if_pos hcond] at hfa
    injection hfa with h4
    rw [← h4]
    exact ⟨rfl, hcond⟩
  · rw [if_neg hcond] at hfa
    exact Option.noConfusion hfa

theorem hybridSearch_ok_spec {e : REngine} {q : KnowledgeQuery}
    {cat : List (String × KnowledgeItem)} {now : ℚ} {res : List (String × ℝ)}
    (h : hybridSearch e q cat now = Except.ok res) :
    res.length ≤ q.top_k
    ∧ List.Pairwise revScoreR res
    ∧ ∀ p ∈ res, ((q.threshold : ℚ) : ℝ) ≤ p.2 := by
  unfold hybridSearch at h
  cases hs : semanticSearch e q cat with
  | error er =>
    rw [hs] at h
    exact Except.noConfusion h
  | ok sres =>
    rw [hs] at h
    injection h with h2
    subst h2
    refine ⟨List.length_take_le _ _,
      (List.sorted_insertionSort revScoreR _).sublist (List.take_sublist _ _), ?_⟩
    intro p hp
    have hp2 := List.mem_of_mem_take hp
    have hp3 := (List.perm_insertionSort revScoreR _).subset hp2
    exact (hybridCombined_score hp3).2

theorem semanticSearch_ok_spec {e : REngine} {q : KnowledgeQuery}
    {cat : List (String × KnowledgeItem)} {res : List (String × ℝ)}
    (h : semanticSearch e q cat = Except.ok res) :
    res.length ≤ q.top_k
    ∧ List.Pairwise revScoreR res
    ∧ ∀ p ∈ res, ((q.threshold : ℚ) : ℝ) ≤ p.2 := by
  unfold semanticSearch at h
  split at h
  · injection h with h2
    subst h2
    exact ⟨Nat.zero_le _, List.Pairwise.nil, by simp⟩
  · rename_i cid hdc
    cases hsi : searchItems e.vdb cid (e.embed q.query_text) q.top_k q.threshold q.filters with
    | error er =>
      rw [hsi] at h
      exact Except.noConfusion h
    | ok sres =>
      rw [hsi] at h
      injection h with h2
      subst h2
      obtain ⟨h1, h2, h3⟩ := searchItems_ok_spec hsi
      refine ⟨?_, ?_, ?_⟩
      · exact le_trans (List.filter_sublist _).length_le h1
      · exact h2.sublist (List.filter_sublist _)
      · intro p hp
        exact h3 p (List.mem_of_mem_filter hp)

/-- C2: corrected form. For every query processed against any catalog, the
result list has length at most `top_k` and non-increasing scores; every
returned score is at least the threshold for semantic, keyword and hybrid
queries; exact queries instead return the fixed score `1.0` for every
result — `_exact_search` never applies the threshold, so the score bound
holds for exact queries only when the threshold is at most `1.0`. -/
theorem re_process_query_topk_contract (e : REngine) (q : KnowledgeQuery)
    (cat : List (String × KnowledgeItem)) (now : ℚ) (res : List (String × ℝ))
    (h : processQuery e q cat now = Except.ok res) :
    res.length ≤ q.top_k
    ∧ List.Pairwise (fun a b : String × ℝ => b.2 ≤ a.2) res
    ∧ (q.query_type ≠ QueryType.exact → ∀ p ∈ res, ((q.threshold : ℚ) : ℝ) ≤ p.2)
    ∧ (q.query_type = QueryType.exact → ∀ p ∈ res, p.2 = 1) := by
  unfold processQuery at h
  cases hqt : q.query_type with
  | semantic =>
    rw [hqt] at h
    obtain ⟨h1, h2, h3⟩ := semanticSearch_ok_spec h
    exact ⟨h1, h2.imp (fun hab => hab), fun _ => h3,
      fun hc => absurd hc (by simp)⟩
  | keyword =>
    rw [hqt] at h
    injection h with h2
    subst h2
    obtain ⟨h1, h2, h3⟩ := keywordSearchQ_spec q cat now
    refine ⟨by simpa using h1, pairwise_snd_cast h2, fun _ p hp => ?_,
      fun hc => absurd hc (by simp)⟩
    rcases List.mem_map.mp hp with ⟨a, ha, heq⟩
    rw [← heq]
    exact Rat.cast_le.mpr (h3 a ha)
  | hybrid =>
    rw [hqt] at h
    obtain ⟨h1, h2, h3⟩ := hybridSearch_ok_spec h
    exact ⟨h1, h2.imp (fun hab => hab), fun _ => h3,
      fun hc => absurd hc (by simp)⟩
  | exact =>
    rw [hqt] at h
    injection h with h2
    subst h2
    obtain ⟨h1, h2⟩ := exactSearchQ_spec q cat now
    have hall : ∀ p ∈ (exactSearchQ q cat now).map (fun p => (p.1, ((p.2 : ℚ) : ℝ))),
        p.2 = (1 : ℝ) := by
      intro p hp
      rcases List.mem_map.mp hp with ⟨a, ha, heq⟩
      rw [← heq]
      simp [h2 a ha]
    refine ⟨by simpa using h1, pairwise_rev_of_const hall,
      fun hc => absurd rfl hc, fun _ => hall⟩

/-- C2: witness for the corrected form: an exact query with threshold 0.5
(score 1 ≥ threshold) and a keyword query with threshold 0. -/
theorem re_process_query_topk_contract_witness :
    processQuery eTriv qExW catRC 0 = Except.ok [(("a"), ((1 : ℚ) : ℝ))]
    ∧ qExW.query_type = QueryType.exact
    ∧ [(("a"), ((1 : ℚ) : ℝ))].length ≤ qExW.top_k
    ∧ (∀ p ∈ [(("a"), ((1 : ℚ) : ℝ))], p.2 = 1)
    ∧ processQuery eTriv qKw catRC 0 = Except.ok [(("a"), ((0 : ℚ) : ℝ))]
    ∧ qKw.query_type ≠ QueryType.exact
    ∧ (∀ p ∈ [(("a"), ((0 : ℚ) : ℝ))], ((qKw.threshold : ℚ) : ℝ) ≤ p.2) :=
  ⟨rfl, rfl, (re_process_query_topk_contract eTriv qExW catRC 0 _ rfl).1, 
   (re_process_query_topk_contract eTriv qExW catRC 0 _ rfl).2.2.2 rfl,
   rfl, by decide,
   (re_process_query_topk_contract eTriv qKw catRC 0 _ rfl).2.2.1 (by decide)⟩

/-- C2: counterexample to the claim as stated. An exact query with
threshold 2 still returns its match with the fixed score `1.0 < 2`:
`_exact_search` never compares scores against the threshold. -/
theorem re_process_query_threshold_counterexample :
    processQuery eTriv qCex catRC 0 = Except.ok [(("a"), ((1 : ℚ) : ℝ))]
    ∧ qCex.query_type = QueryType.exact
    ∧ qCex.threshold = 2
    ∧ ¬(((qCex.threshold : ℚ) : ℝ) ≤ ((1 : ℚ) : ℝ)) := by
  refine ⟨rfl, rfl, rfl, ?_⟩
  push_cast
  norm_num [qCex]

/-- C5: hybrid additivity. Every item reported by a hybrid query carries
the score `semantic·0.7 + keyword·0.3`, where the semantic and keyword
sides are the scores the item obtained in the two sub-searches and a side
on which the item is missing contributes `0` (the dict `get` default). -/
theorem re_hybrid_additivity (e : REngine) (q : KnowledgeQuery)
    (cat : List (String × KnowledgeItem)) (now : ℚ) (sres : List (String × ℝ))
    (res : List (String × ℝ))
    (hq : q.query_type = QueryType.hybrid)
    (hs : semanticSearch e q cat = Except.ok sres)
    (h : processQuery e q cat now = Except.ok res) :
    ∀ p ∈ res, p.2 = (dlookup p.1 sres).getD 0 * 0.7
      + (((dlookup p.1 (keywordSearchQ q cat now)).getD 0 : ℚ) : ℝ) * 0.3 := by
  unfold processQuery at h
  rw [hq] at h
  have h' : hybridSearch e q cat now = Except.ok res := h
  unfold hybridSearch at h'
  rw [hs] at h'
  have h'' : Except.ok ((List.insertionSort revScoreR
      (hybridCombined q sres (keywordSearchQ q cat now))).take q.top_k)
      = Except.ok res := h'
  injection h'' with h2
  subst h2
  intro p hp
  have hp2 := List.mem_of_mem_take hp
  have hp3 := (List.perm_insertionSort revScoreR _).subset hp2
  have hm := (hybridCombined_score hp3).1
  rw [hm]
  unfold hybridScore
  rfl

/-- C5: witness. With no default collection the semantic side is empty, and
the single keyword result of score `0` is reported with hybrid score
`0·0.7 + 0·0.3 = 0`. -/
theorem re_hybrid_additivity_witness :
    qHyb.query_type = QueryType.hybrid
    ∧ semanticSearch eTriv qHyb catRC = Except.ok []
    ∧ processQuery eTriv qHyb catRC 0 = Except.ok [(("a"), (0 : ℝ))]
    ∧ (("a"), (0 : ℝ)) ∈ [(("a"), (0 : ℝ))]
    ∧ (0 : ℝ) = (dlookup ("a") ([] : List (String × ℝ))).getD 0 * 0.7
        + (((dlookup ("a") (keywordSearchQ qHyb catRC 0)).getD 0 : ℚ) : ℝ) * 0.3 := by
  have hproc : processQuery eTriv qHyb catRC 0 = Except.ok [(("a"), (0 : ℝ))] := by
    show hybridSearch eTriv qHyb catRC 0 = Except.ok [(("a"), (0 : ℝ))]
    show Except.ok ((List.insertionSort revScoreR
      (hybridCombined qHyb [] (keywordSearchQ qHyb catRC 0))).take qHyb.top_k) = _
    rw [show keywordSearchQ qHyb catRC 0 = [(("a"), (0 : ℚ))] from rfl]
    rw [show hybridCombined qHyb [] [(("a"), (0 : ℚ))] = [(("a"), (0 : ℝ))] by
      norm_num [hybridCombined, hybridScore, dlookup, qHyb, List.filterMap_cons]]
    rfl
  refine ⟨rfl, rfl, hproc, by simp, ?_⟩
  exact re_hybrid_additivity eTriv qHyb catRC 0 [] [(("a"), (0 : ℝ))] rfl rfl hproc
    (("a"), (0 : ℝ)) (by simp)

theorem cosineSim_one_one : cosineSim [(1:ℚ)] [(1:ℚ)] = 1 := by
  norm_num [cosineSim, dotQ, sumSq, Real.sqrt_one]

theorem searchVectors_db10 : searchVectors db10 ("c") [(1:ℚ)] 2 0 none
    = Except.ok [(("e1"), (1:ℝ)), (("e2"), (1:ℝ))] := by
  norm_num [searchVectors, db10, dlookup, truthyFilters, List.filterMap_cons, entE1, entE2, entE3,
    cosineSim_one_one, List.insertionSort, List.orderedInsert, revScoreR]

/-- C10: the `top_k` truncation of `search_items` happens at the vector
level, before deduplication by item id. In `db10`, items `A` and `B` are
distinct and each owns a vector with similarity `1 ≥ 0` to the query `[1]`,
yet a search with `top_k = 2` returns only one item: `A`'s two unit vectors
fill the entry-level cut and crowd `B` out. -/
theorem vdb_search_items_topk_before_dedup :
    searchItems db10 ("c") [(1:ℚ)] 2 0 none = Except.ok [(("A"), (1:ℝ))]
    ∧ [(("A"), (1:ℝ))].length < 2
    ∧ ("A" : String) ≠ "B"
    ∧ dlookup ("c") db10.entries = some [(("e1"), entE1), (("e2"), entE2), (("e3"), entE3)]
    ∧ entE1.item_id = "A"
    ∧ entE3.item_id = "B"
    ∧ ((0 : ℚ) : ℝ) ≤ cosineSim [(1:ℚ)] entE1.vector
    ∧ ((0 : ℚ) : ℝ) ≤ cosineSim [(1:ℚ)] entE3.vector := by
  refine ⟨?_, by norm_num, by decide, by decide, by decide, by decide, ?_, ?_⟩
  · unfold searchItems
    rw [searchVectors_db10]
    rfl
  · rw [show entE1.vector = [(1:ℚ)] from rfl, cosineSim_one_one]
    norm_num
  · rw [show entE3.vector = [(1:ℚ)] from rfl, cosineSim_one_one]
    norm_num

theorem dlookup_some_mem {d : List (String × α)} {k : String} {v : α}
    (h : dlookup k d = some v) : (k, v) ∈ d := by
  induction d with
  | nil => exact Option.noConfusion h
  | cons p rest ih =>
    by_cases hp : p.1 = k
    · simp only [dlookup, if_pos hp] at h
      injection h with h2
      subst h2
      rw [← hp]
      exact List.mem_cons_self _ _
    · simp only [dlookup, if_neg hp] at h
      exact List.mem_cons_of_mem _ (ih h)

theorem deleteVector_found {db : VDB} {cid eid : String} {c : VectorCollection}
    {es : List (String × VectorEntry)} {entry : VectorEntry}
    (hc : dlookup cid db.collections = some c)
    (he : dlookup cid db.entries = some es)
    (hee : dlookup eid es = some entry) :
    deleteVector db cid eid = (true,
      { db with
          entries := dictInsert db.entries cid (dictErase es eid)
          item_mapping :=
            match dlookup entry.item_id db.item_mapping with
            | none => db.item_mapping
            | some l =>
              if (l.filter (fun pr => ¬(pr.1 = cid ∧ pr.2 = eid))).isEmpty then
                dictErase db.item_mapping entry.item_id
              else dictInsert db.item_mapping entry.item_id
                (l.filter (fun pr => ¬(pr.1 = cid ∧ pr.2 = eid))) }) := by
  unfold deleteVector
  rw [hc, he]
  simp only [Option.getD_some]
  rw [hee]

theorem filter_remove_head {p : String × String} {rest : List (String × String)}
    (hnp : p ∉ rest) :
    (p :: rest).filter (fun pr => ¬(pr.1 = p.1 ∧ pr.2 = p.2)) = rest := by
  rw [List.filter_cons]
  have h1 : (decide ¬(p.1 = p.1 ∧ p.2 = p.2)) = false := by simp
  rw [h1]
  simp only [Bool.false_eq_true, if_false]
  refine List.filter_eq_self.mpr ?_
  intro x hx
  refine decide_eq_true ?_
  intro hc
  apply hnp
  have hxp : x = p := Prod.ext hc.1 hc.2
  rw [← hxp]
  exact hx

theorem entryOfItem_spec {db : VDB} {cid eid id : String}
    (h : entryOfItem db cid eid id = true) :
    ∃ es e, dlookup cid db.entries = some es ∧ dlookup eid es = some e ∧ e.item_id = id := by
  unfold entryOfItem at h
  split at h
  · exact Bool.noConfusion h
  · rename_i es hes
    split at h
    · exact Bool.noConfusion h
    · rename_i e hev
      exact ⟨es, e, hes, hev, eq_of_beq h⟩

theorem entryOfItem_intro {db : VDB} {cid eid id : String}
    {es : List (String × VectorEntry)} {e : VectorEntry}
    (hes : dlookup cid db.entries = some es) (hev : dlookup eid es = some e)
    (hid : e.item_id = id) : entryOfItem db cid eid id = true := by
  unfold entryOfItem
  cases h1 : dlookup cid db.entries with
  | none =>
    rw [h1] at hes
    exact Option.noConfusion hes
  | some es2 =>
    rw [h1] at hes
    injection hes with hes2
    rw [← hes2] at hev
    show (match dlookup eid es2 with
      | none => false
      | some e => e.item_id == id) = true
    cases h2 : dlookup eid es2 with
    | none =>
      rw [h2] at hev
      exact Option.noConfusion hev
    | some e2 =>
      rw [h2] at hev
      injection hev with hev2
      subst hev2
      show (e2.item_id == id) = true
      exact beq_iff_eq.mpr hid

theorem delLoop_spec : ∀ (l : List (String × String)) (db : VDB) (id : String),
    l.Nodup →
    (dkeys db.entries).Nodup →
    (dkeys db.item_mapping).Nodup →
    (∀ ce ∈ db.entries, (dkeys ce.2).Nodup) →
    (∀ p ∈ l, (dlookup p.1 db.collections).isSome = true) →
    (∀ p ∈ l, entryOfItem db p.1 p.2 id = true) →
    (∀ ce ∈ db.entries, ∀ q ∈ ce.2, q.2.item_id = id → (ce.1, q.1) ∈ l) →
    (dlookup id db.item_mapping = if l.isEmpty then none else some l) →
    (delLoop db l).1 = l.length
    ∧ (delLoop db l).2.collections = db.collections
    ∧ dlookup id (delLoop db l).2.item_mapping = none
    ∧ (∀ ce ∈ (delLoop db l).2.entries, ∀ q ∈ ce.2, q.2.item_id ≠ id) := by
  intro l
  induction l with
  | nil =>
    intro db id _ _ _ _ _ _ hback hmap
    simp only [List.isEmpty_nil, if_true] at hmap
    refine ⟨rfl, rfl, hmap, ?_⟩
    intro ce hce q hq hqid
    exact absurd (hback ce hce q hq hqid) (List.not_mem_nil _)
  | cons p rest ih =>
    intro db id hnd hkE hkI hkP hcol hfwd hback hmap
    obtain ⟨c, hc⟩ := Option.isSome_iff_exists.mp (hcol p (List.mem_cons_self _ _))
    obtain ⟨es, entry, he, hee, heid⟩ := entryOfItem_spec (hfwd p (List.mem_cons_self _ _))
    have hmap' : dlookup id db.item_mapping = some (p :: rest) := by
      simpa using hmap
    simp only [List.nodup_cons] at hnd
    have hfilter : (p :: rest).filter (fun pr => ¬(pr.1 = p.1 ∧ pr.2 = p.2)) = rest :=
      filter_remove_head hnd.1
    have hdel := deleteVector_found hc he hee
    rw [heid, hmap'] at hdel
    simp only [hfilter] at hdel
    have hcidmem : p.1 ∈ dkeys db.entries := dlookup_isSome_iff.mp (by rw [he]; rfl)
    have hidmem : id ∈ dkeys db.item_mapping := dlookup_isSome_iff.mp (by rw [hmap']; rfl)
    have hesmem : (p.1, es) ∈ db.entries := dlookup_some_mem he
    have heemem : p.2 ∈ dkeys es := dlookup_isSome_iff.mp (by rw [hee]; rfl)
    have IH := ih
      { db with
          entries := dictInsert db.entries p.1 (dictErase es p.2)
          item_mapping :=
            if rest.isEmpty then dictErase db.item_mapping id
            else dictInsert db.item_mapping id rest }
      id hnd.2
      (by rw [dkeys_dictInsert_of_mem _ hcidmem]; exact hkE)
      (by
        by_cases hre : rest.isEmpty
        · simp only [if_pos hre]
          exact hkI.sublist (dkeys_dictErase_sublist _ _)
        · simp only [if_neg hre]
          rw [dkeys_dictInsert_of_mem _ hidmem]
          exact hkI)
      (by
        intro ce hce
        rcases mem_dictInsert hce with hceq | hcem
        · rw [hceq]
          exact (hkP (p.1, es) hesmem).sublist (dkeys_dictErase_sublist _ _)
        · exact hkP ce hcem)
      (by
        intro p' hp'
        exact hcol p' (List.mem_cons_of_mem _ hp'))
      (by
        intro p' hp'
        obtain ⟨es', e', hes', hev', hid'⟩ :=
          entryOfItem_spec (hfwd p' (List.mem_cons_of_mem _ hp'))
        by_cases hpc : p'.1 = p.1
        · rw [hpc, he] at hes'
          injection hes' with hes2
          subst hes2
          have hne2 : p'.2 ≠ p.2 := by
            intro hc2
            apply hnd.1
            have hpp : p' = p := Prod.ext hpc hc2
            rw [← hpp]
            exact hp'
          have hes3 : dlookup p'.1 (dictInsert db.entries p.1 (dictErase es p.2))
              = some (dictErase es p.2) := by
            rw [hpc]
            exact dlookup_dictInsert_self _ _ _
          have hev3 : dlookup p'.2 (dictErase es p.2) = some e' := by
            rw [dlookup_dictErase_ne es hne2]
            exact hev'
          exact entryOfItem_intro hes3 hev3 hid'
        · have hes3 : dlookup p'.1 (dictInsert db.entries p.1 (dictErase es p.2))
              = some es' := by
            rw [dlookup_dictInsert_ne _ _ hpc]
            exact hes'
          exact entryOfItem_intro hes3 hev' hid')
      (by
        intro ce hce q hq hqid
        rcases (mem_dictInsert_iff hkE).mp hce with hceq | ⟨hcem, hcne⟩
        · rw [hceq] at hq ⊢
          have hqes : q ∈ es := (dictErase_sublist es p.2).subset hq
          have hqne : q.1 ≠ p.2 := mem_dictErase_key_ne (hkP (p.1, es) hesmem) hq heemem
          have h2 := hback (p.1, es) hesmem q hqes hqid
          rcases List.mem_cons.mp h2 with h3 | h3
          · exact absurd (congrArg Prod.snd h3) hqne
          · exact h3
        · have h2 := hback ce hcem q hq hqid
          rcases List.mem_cons.mp h2 with h3 | h3
          · exact absurd (congrArg Prod.fst h3) hcne
          · exact h3)
      (by
        by_cases hre : rest.isEmpty
        · simp only [if_pos hre]
          exact dlookup_dictErase_self hkI
        · simp only [if_neg hre]
          exact dlookup_dictInsert_self _ _ _)
    simp only [delLoop, hdel]
    refine ⟨?_, ?_, ?_, ?_⟩
    · simp only [IH.1]
      simp [List.length_cons, Nat.add_comm]
    · exact IH.2.1
    · exact IH.2.2.1
    · exact IH.2.2.2

theorem deleteItemVectors_spec {db : VDB} {id : String} {l : List (String × String)}
    (hmap : dlookup id db.item_mapping = some l)
    (hne : l.isEmpty = false)
    (hnd : l.Nodup)
    (hkE : (dkeys db.entries).Nodup)
    (hkI : (dkeys db.item_mapping).Nodup)
    (hkP : ∀ ce ∈ db.entries, (dkeys ce.2).Nodup)
    (hcol : ∀ p ∈ l, (dlookup p.1 db.collections).isSome = true)
    (hfwd : ∀ p ∈ l, entryOfItem db p.1 p.2 id = true)
    (hback : ∀ ce ∈ db.entries, ∀ q ∈ ce.2, q.2.item_id = id → (ce.1, q.1) ∈ l) :
    (deleteItemVectors db id).1 = l.length
    ∧ dlookup id (deleteItemVectors db id).2.item_mapping = none
    ∧ (∀ ce ∈ (deleteItemVectors db id).2.entries, ∀ q ∈ ce.2, q.2.item_id ≠ id) := by
  unfold deleteItemVectors
  rw [hmap]
  have hmap2 : dlookup id db.item_mapping = if l.isEmpty then none else some l := by
    rw [hne, hmap]
    rfl
  have h := delLoop_spec l db id hnd hkE hkI hkP hcol hfwd hback hmap2
  exact ⟨h.1, h.2.2.1, h.2.2.2⟩

theorem purgeCategories_not_mem {cats : List (String × MemoryCategory)} {id : String}
    (h : ∀ c ∈ cats, c.2.items.Nodup) :
    ∀ c ∈ purgeCategories cats id, id ∉ c.2.items := by
  intro c hc
  unfold purgeCategories at hc
  rcases List.mem_map.mp hc with ⟨p, hp, rfl⟩
  by_cases hm : id ∈ p.2.items
  · simp only [if_pos hm]
    intro hmem
    exact ((h p hp).mem_erase_iff.mp hmem).1 rfl
  · simp only [if_neg hm]
    exact hm

theorem deleteItem_purges {mm : MMState} {id : String}
    (htier : (dlookup id mm.short_term).isSome = true
      ∨ (dlookup id mm.long_term).isSome = true)
    (hcats : ∀ c ∈ mm.categories, c.2.items.Nodup) :
    ∀ c ∈ (deleteItem mm id).2.categories, id ∉ c.2.items := by
  unfold deleteItem
  by_cases hs : (dlookup id mm.short_term).isSome = true
  · simp only [if_pos hs]
    exact purgeCategories_not_mem hcats
  · simp only [if_neg hs]
    rcases htier with h | h
    · exact absurd h hs
    · simp only [if_pos h]
      exact purgeCategories_not_mem hcats

/-- C8: cascade deletion. For an item whose reverse index lists its vectors
consistently (every listed pair exists with this item id, every stored
vector of the item is listed, pairwise distinct, and the dictionaries have
duplicate-free keys), `delete_knowledge_item` succeeds, deletes exactly as
many vectors as the reverse index listed, leaves no vector of the item in
any collection and no reverse-index entry for it, and removes the id from
the item list of every category that referenced it. -/
theorem km_delete_knowledge_item_cascade (s : KModule) (id : String)
    (l : List (String × String))
    (hcat : (dlookup id s.knowledge_items).isSome = true)
    (hmap : dlookup id s.vdb.item_mapping = some l)
    (hne : l.isEmpty = false)
    (hnd : l.Nodup)
    (hkE : (dkeys s.vdb.entries).Nodup)
    (hkI : (dkeys s.vdb.item_mapping).Nodup)
    (hkP : ∀ ce ∈ s.vdb.entries, (dkeys ce.2).Nodup)
    (hcol : ∀ p ∈ l, (dlookup p.1 s.vdb.collections).isSome = true)
    (hfwd : ∀ p ∈ l, entryOfItem s.vdb p.1 p.2 id = true)
    (hback : ∀ ce ∈ s.vdb.entries, ∀ q ∈ ce.2, q.2.item_id = id → (ce.1, q.1) ∈ l)
    (htier : (dlookup id s.mm.short_term).isSome = true
      ∨ (dlookup id s.mm.long_term).isSome = true)
    (hcats : ∀ c ∈ s.mm.categories, c.2.items.Nodup) :
    (deleteKnowledgeItem s id).1 = true
    ∧ (deleteItemVectors s.vdb id).1 = l.length
    ∧ dlookup id (deleteKnowledgeItem s id).2.vdb.item_mapping = none
    ∧ (∀ ce ∈ (deleteKnowledgeItem s id).2.vdb.entries, ∀ q ∈ ce.2, q.2.item_id ≠ id)
    ∧ (∀ c ∈ (deleteKnowledgeItem s id).2.mm.categories, id ∉ c.2.items) := by
  have hdk : deleteKnowledgeItem s id = (true,
      { s with
          knowledge_items := dictErase s.knowledge_items id
          vdb := (deleteItemVectors s.vdb id).2
          mm := (deleteItem s.mm id).2 }) := by
    unfold deleteKnowledgeItem
    rw [if_neg (by rw [hcat]; simp)]
  obtain ⟨h1, h2, h3⟩ := deleteItemVectors_spec hmap hne hnd hkE hkI hkP hcol hfwd hback
  refine ⟨by rw [hdk], h1, ?_, ?_, ?_⟩
  · rw [hdk]
    exact h2
  · rw [hdk]
    exact h3
  · rw [hdk]
    exact deleteItem_purges htier hcats

/-- C8: witness at a module whose catalog, vector store (two vectors in one
collection) and memory (one category reference) all know the item `i`. -/
theorem km_delete_knowledge_item_cascade_witness :
    (dlookup ("i") s8.knowledge_items).isSome = true
    ∧ dlookup ("i") s8.vdb.item_mapping = some [(("c"), ("e1")), (("c"), ("e2"))]
    ∧ (deleteKnowledgeItem s8 ("i")).1 = true
    ∧ (deleteItemVectors s8.vdb ("i")).1 = 2
    ∧ dlookup ("i") (deleteKnowledgeItem s8 ("i")).2.vdb.item_mapping = none
    ∧ (∀ c ∈ (deleteKnowledgeItem s8 ("i")).2.mm.categories, ("i") ∉ c.2.items) := by
  have h := km_delete_knowledge_item_cascade s8 ("i") [(("c"), ("e1")), (("c"), ("e2"))]
    (by decide) (by decide) (by decide) (by decide) (by decide) (by decide) (by decide)
    (by decide) (by decide) (by decide) (by decide) (by decide)
  exact ⟨by decide, by decide, h.1, h.2.1, h.2.2.1, h.2.2.2.2⟩
